import Mathlib

/-!
Verification development for the SkyOffice presence / room orchestrator.

The definitions below are a shallow embedding of the server sources:
  * `server/rooms/SkyOffice.ts` (room instance, NPC assignment engine,
    handshake, room directory, walkable map + A* pathfinder,
    precomputed-grid loader, presence-secret resolver),
  * `server/lib/managerToken.ts` (HMAC capability-token verifier),
  * `server/index.ts` (HTTP facade and reconciler; only referenced parts).

JavaScript `Map`s are modelled as insertion-ordered association lists
(`SMap`), JavaScript strings as Lean `String`/`List Char`, byte buffers as
`List Nat` with values < 256, and external effects (crypto HMAC, registry
HTTP calls, the secret store, bcrypt) as explicit parameters carrying the
result the external call would produce.
-/

/-- Insertion-ordered association list, modelling a JavaScript `Map`.
`Map.set` on an existing key replaces the value in place (keeping the
original insertion position); on a fresh key it appends at the end. -/
abbrev SMap (α β : Type) := List (α × β)

def SMap.empty {α β : Type} : SMap α β := []

def SMap.get {α β : Type} [DecidableEq α] (m : SMap α β) (k : α) : Option β :=
  match m with
  | [] => none
  | (k', v) :: rest => if k' = k then some v else SMap.get rest k

def SMap.contains {α β : Type} [DecidableEq α] (m : SMap α β) (k : α) : Bool :=
  (SMap.get m k).isSome

/-- JavaScript `Map.set`: replace in place if the key exists, else append. -/
def SMap.set {α β : Type} [DecidableEq α] (m : SMap α β) (k : α) (v : β) : SMap α β :=
  match m with
  | [] => [(k, v)]
  | (k', v') :: rest =>
      if k' = k then (k', v) :: rest else (k', v') :: SMap.set rest k v

/-- JavaScript `Map.delete`: remove the entry for the key (if any).
Keys are unique on every map reachable through `SMap.set`, so removing
every occurrence coincides with removing the single entry. -/
def SMap.del {α β : Type} [DecidableEq α] (m : SMap α β) (k : α) : SMap α β :=
  match m with
  | [] => []
  | (k', v') :: rest =>
      if k' = k then SMap.del rest k else (k', v') :: SMap.del rest k

theorem SMap.get_set_eq {α β : Type} [DecidableEq α] (m : SMap α β) (k : α) (v : β) :
    SMap.get (SMap.set m k v) k = some v := by
  induction m with
  | nil => simp [SMap.set, SMap.get]
  | cons hd tl ih =>
      obtain ⟨k', v'⟩ := hd
      by_cases h : k' = k <;> simp [SMap.set, SMap.get, h, ih]

theorem SMap.get_set_ne {α β : Type} [DecidableEq α] (m : SMap α β) (k k' : α) (v : β)
    (h : k ≠ k') : SMap.get (SMap.set m k v) k' = SMap.get m k' := by
  induction m with
  | nil => simp [SMap.set, SMap.get, h]
  | cons hd tl ih =>
      obtain ⟨ka, va⟩ := hd
      by_cases hk : ka = k <;> simp [SMap.set, SMap.get, hk, ih]
      · subst hk; simp [h]

theorem SMap.get_del_eq {α β : Type} [DecidableEq α] (m : SMap α β) (k : α) :
    SMap.get (SMap.del m k) k = none := by
  induction m with
  | nil => simp [SMap.del, SMap.get]
  | cons hd tl ih =>
      obtain ⟨k', v'⟩ := hd
      by_cases h : k' = k <;> simp [SMap.del, SMap.get, h, ih]

theorem SMap.get_del_ne {α β : Type} [DecidableEq α] (m : SMap α β) (k k' : α)
    (h : k ≠ k') : SMap.get (SMap.del m k) k' = SMap.get m k' := by
  induction m with
  | nil => simp [SMap.del, SMap.get]
  | cons hd tl ih =>
      obtain ⟨ka, va⟩ := hd
      by_cases hk : ka = k
      · subst hk
        simp [SMap.del, SMap.get, if_neg (by exact h), ih]
      · simp [SMap.del, SMap.get, hk, ih]

/-! ## JavaScript string helpers -/

def isJsSpace (c : Char) : Bool := c = ' ' ∨ c = '\t' ∨ c = '\n' ∨ c = '\r'

/-- `String.prototype.trim` (modelled for ASCII whitespace). -/
def jsTrim (s : String) : String :=
  String.mk (((s.data.dropWhile isJsSpace).reverse.dropWhile isJsSpace).reverse)

/-- `String.prototype.toLowerCase` (modelled for ASCII letters). -/
def jsLower (s : String) : String := String.mk (s.data.map Char.toLower)

/-- JavaScript truthiness of an optional string: `undefined` and `""` are falsy. -/
def truthyStr (o : Option String) : Option String :=
  match o with
  | none => none
  | some s => if s = "" then none else some s

/-- JavaScript `a || b` on optional strings. -/
def jsOrStr (a b : Option String) : Option String :=
  match truthyStr a with
  | some s => some s
  | none => b

/-! ## Room in-memory state (server/rooms/SkyOffice.ts)

The Colyseus schema tree is modelled by plain records.  `Player` fields and
their construction defaults come from the schema module (not part of the
sources; the spec lists the fields `x`, `y`, `anim`, `name`,
`readyToConnect`, `videoConnected`).  Persistence writes, registry patches
and lobby metadata updates are external side effects with no bearing on the
in-memory state the claims are about, so they are not represented. -/

structure Player where
  name : String
  x : Int
  y : Int
  anim : String
  readyToConnect : Bool
  videoConnected : Bool
  deriving DecidableEq, Repr

def newPlayer : Player :=
  { name := "", x := 0, y := 0, anim := "", readyToConnect := false, videoConnected := false }

/-- A computer's `connectedUser` set schema; membership-ordered list of session ids. -/
structure Computer where
  connectedUser : List String
  deriving DecidableEq, Repr

def Computer.hasUser (c : Computer) (sessionId : String) : Bool :=
  c.connectedUser.contains sessionId

/-- `SetSchema.add`: no duplicates. -/
def Computer.addUser (c : Computer) (sessionId : String) : Computer :=
  if c.hasUser sessionId then c else { connectedUser := c.connectedUser ++ [sessionId] }

/-- `SetSchema.delete`. -/
def Computer.delUser (c : Computer) (sessionId : String) : Computer :=
  { connectedUser := c.connectedUser.filter (fun s => s ≠ sessionId) }

/-- `NpcDeploymentPayload` (server/rooms/SkyOffice.ts).  `registryAgentId`
and `agentMetadata` are carried opaquely to external systems only and are
omitted. -/
structure NpcDeploymentPayload where
  agentId : String
  name : String
  avatarId : String
  workstationId : String
  position : Option (Int × Int)
  role : Option String
  officeId : Option String
  computerId : Option String
  voiceAgentId : Option String
  namespaceSlug : Option String
  deriving DecidableEq, Repr

structure NpcAssignment where
  agentId : String
  name : String
  avatarId : String
  workstationId : String
  position : Option (Int × Int)
  role : String
  officeId : Option String
  computerId : Option String
  voiceAgentId : Option String
  namespaceSlug : Option String
  roomId : String
  assignedAt : String
  deriving DecidableEq, Repr

structure RoomState where
  players : SMap String Player
  computers : SMap String Computer
  npcAssignments : SMap String NpcAssignment
  deriving DecidableEq, Repr

/-- `onCreate` seeds five computers keyed "0".."4" (whiteboards are not
relevant to the claims). -/
def freshRoomState : RoomState :=
  { players := SMap.empty
    computers := [("0", ⟨[]⟩), ("1", ⟨[]⟩), ("2", ⟨[]⟩), ("3", ⟨[]⟩), ("4", ⟨[]⟩)]
    npcAssignments := SMap.empty }

/-- Identity of a room instance (assigned at `onCreate`). -/
structure RoomCtx where
  roomId : String
  name : String
  namespaceSlug : Option String
  deriving DecidableEq, Repr

def getNpcKey (agentId : String) : String := "npc-" ++ agentId

def normaliseNpcRole (role : Option String) : String :=
  match role with
  | none => "GM"
  | some r =>
      let trimmed := jsTrim r
      if trimmed = "" then "GM"
      else if jsLower trimmed = "office secretary" then "GM"
      else trimmed

def avatarAnimMap : List (String × String) :=
  [("adam", "adam_idle_down"), ("ash", "ash_idle_down"),
   ("lucy", "lucy_idle_down"), ("nancy", "nancy_idle_down")]

def getIdleAnim (avatarId : String) : String :=
  match SMap.get avatarAnimMap avatarId with
  | some a => a
  | none => "adam_idle_down"

def getSittingAnim (avatarId : String) : String := avatarId ++ "_sit_down"

/-- Modelled from the spec: `resolveComputerIdFromWorkstation` comes from the
shared module `shared/workstationSeats`, which is not among the sources.  The
spec describes it as a static table mapping workstation names (for example
`"design-studio"`) to one of the room's five computer slots. -/
def workstationSeatTable : List (String × String) :=
  [("design-studio", "0")]

def resolveComputerIdFromWorkstation (workstationId : String) : Option String :=
  SMap.get workstationSeatTable workstationId

/-- `assignNpcToWorkstation`: returns the updated computers plus the assigned
computer id.  Early exits happen before the occupancy-clearing loop. -/
def assignNpcToWorkstation (computers : SMap String Computer) (playerKey : String)
    (payload : NpcDeploymentPayload) : SMap String Computer × Option String :=
  if payload.workstationId = "" then (computers, none)
  else
    match jsOrStr payload.computerId (resolveComputerIdFromWorkstation payload.workstationId) with
    | none => (computers, none)
    | some computerId =>
        let cleared : SMap String Computer :=
          computers.map (fun p => (p.1, Computer.delUser p.2 playerKey))
        match SMap.get cleared computerId with
        | none => (cleared, none)
        | some target =>
            (SMap.set cleared computerId (target.addUser playerKey), some computerId)

/-- `upsertNpc` (in-memory part; `skipPersistence` / `skipRegistrySync` only
gate external effects).  `nowIso` stands for `new Date().toISOString()`. -/
def upsertNpc (ctx : RoomCtx) (s : RoomState) (payload : NpcDeploymentPayload)
    (nowIso : String) : RoomState × NpcAssignment :=
  let key := getNpcKey payload.agentId
  let player0 := (SMap.get s.players key).getD newPlayer
  let player1 : Player :=
    { player0 with
      name := payload.name
      x := (payload.position.map Prod.fst).getD player0.x
      y := (payload.position.map Prod.snd).getD player0.y
      readyToConnect := true
      videoConnected := false }
  let (computers1, assignedComputerId) := assignNpcToWorkstation s.computers key payload
  let player2 : Player :=
    { player1 with
      anim :=
        if assignedComputerId.isSome ∨ (truthyStr payload.computerId).isSome then
          getSittingAnim payload.avatarId
        else
          getIdleAnim payload.avatarId }
  let assignment : NpcAssignment :=
    { agentId := payload.agentId
      name := payload.name
      avatarId := payload.avatarId
      workstationId := payload.workstationId
      position := payload.position
      role := normaliseNpcRole payload.role
      officeId := payload.officeId
      computerId := jsOrStr assignedComputerId payload.computerId
      voiceAgentId := payload.voiceAgentId
      namespaceSlug := some ((jsOrStr payload.namespaceSlug
        (jsOrStr ctx.namespaceSlug (some ctx.name))).getD ctx.name)
      roomId := ctx.roomId
      assignedAt := nowIso }
  ({ players := SMap.set s.players key player2
     computers := computers1
     npcAssignments := SMap.set s.npcAssignments payload.agentId assignment },
   assignment)

/-- `removeNpc`: deletes the assignment, the player entry and any computer
occupancy for the (exact) `agentId`; returns whether an assignment existed. -/
def removeNpc (s : RoomState) (agentId : String) : RoomState × Bool :=
  let key := getNpcKey agentId
  let existed := SMap.contains s.npcAssignments agentId
  ({ players := SMap.del s.players key
     computers := s.computers.map (fun p =>
       (p.1, if p.2.hasUser key then p.2.delUser key else p.2))
     npcAssignments := SMap.del s.npcAssignments agentId },
   existed)

/-- `SkyOffice.findRoomWithAgent`: linear scan over active rooms; a room
matches when some assignment's `agentId` equals (string equality, no case
folding) the probe. -/
def roomHasAgent (s : RoomState) (agentId : String) : Bool :=
  s.npcAssignments.any (fun p => p.2.agentId = agentId)

def findRoomWithAgent (rooms : List (RoomCtx × RoomState)) (agentId : String) :
    Option RoomCtx :=
  match rooms with
  | [] => none
  | (ctx, s) :: rest =>
      if roomHasAgent s agentId then some ctx else findRoomWithAgent rest agentId

/-- Sequences of NPC operations on one room. -/
inductive NpcOp where
  | upsert (payload : NpcDeploymentPayload) (nowIso : String)
  | remove (agentId : String)
  deriving DecidableEq, Repr

def applyNpcOp (ctx : RoomCtx) (s : RoomState) (op : NpcOp) : RoomState :=
  match op with
  | NpcOp.upsert payload nowIso => (upsertNpc ctx s payload nowIso).1
  | NpcOp.remove agentId => (removeNpc s agentId).1

def applyNpcOps (ctx : RoomCtx) (s : RoomState) (ops : List NpcOp) : RoomState :=
  ops.foldl (applyNpcOp ctx) s

theorem SMap.mem_set_self {α β : Type} [DecidableEq α] (m : SMap α β) (k : α) (v : β) :
    (k, v) ∈ SMap.set m k v := by
  induction m with
  | nil => simp [SMap.set]
  | cons hd tl ih =>
      obtain ⟨k', v'⟩ := hd
      by_cases h : k' = k
      · subst h; simp [SMap.set]
      · simp only [SMap.set, if_neg h]
        exact List.mem_cons_of_mem _ ih

theorem getNpcKey_injective (a b : String) (h : getNpcKey a = getNpcKey b) : a = b := by
  have hd := congrArg String.data h
  simp only [getNpcKey, String.data_append] at hd
  exact String.ext (List.append_cancel_left hd)

/-! ## Claim C4 — agentId case sensitivity of the NPC operations -/

def c4Payload : NpcDeploymentPayload :=
  { agentId := "Agent.X", name := "Ada", avatarId := "adam",
    workstationId := "design-studio", position := some (800, 200),
    role := none, officeId := none, computerId := none,
    voiceAgentId := none, namespaceSlug := none }

def c4Ctx : RoomCtx :=
  { roomId := "r1", name := "alpha", namespaceSlug := some "alpha" }

def c4State : RoomState :=
  (upsertNpc c4Ctx freshRoomState c4Payload "2026-01-01T00:00:00.000Z").1

/-- C4 counterexample: after `upsertNpc` with `agentId = "Agent.X"`,
`removeNpc "agent.x"` (same id up to letter case) returns `false` and leaves
the assignment in place, and `findRoomWithAgent "agent.x"` does not find the
room — the operations do not lowercase `agentId`, refuting the claim that
every operation treats `agentId` case-insensitively. -/
theorem upsertNpc_removeNpc_case_sensitivity_cex :
    (removeNpc c4State "agent.x").2 = false ∧
    SMap.contains (removeNpc c4State "agent.x").1.npcAssignments "Agent.X" = true ∧
    findRoomWithAgent [(c4Ctx, c4State)] "agent.x" = none := by
  refine ⟨by decide, by decide, by decide⟩

/-- C4 (amended): the NPC operations compare `agentId` by exact string
equality.  After `upsertNpc` with agentId `a`, `removeNpc a` (same
spelling) deletes the assignment and returns `true`, and
`findRoomWithAgent a` finds the room; ids differing in letter case are
treated as distinct (callers such as the handshake lowercase beforehand). -/
theorem upsertNpc_removeNpc_exact_agentId (ctx : RoomCtx) (s : RoomState)
    (payload : NpcDeploymentPayload) (nowIso : String) :
    (removeNpc (upsertNpc ctx s payload nowIso).1 payload.agentId).2 = true ∧
    SMap.get (removeNpc (upsertNpc ctx s payload nowIso).1 payload.agentId).1.npcAssignments
      payload.agentId = none ∧
    findRoomWithAgent [(ctx, (upsertNpc ctx s payload nowIso).1)] payload.agentId = some ctx := by
  refine ⟨?_, ?_, ?_⟩
  · simp [removeNpc, upsertNpc, SMap.contains, SMap.get_set_eq]
  · simp [removeNpc, SMap.get_del_eq]
  · have hmem := SMap.mem_set_self s.npcAssignments payload.agentId
      ((upsertNpc ctx s payload nowIso).2)
    have hhas : roomHasAgent (upsertNpc ctx s payload nowIso).1 payload.agentId = true := by
      simp only [roomHasAgent, upsertNpc, List.any_eq_true]
      refine ⟨(payload.agentId, (upsertNpc ctx s payload nowIso).2), ?_, by
        simp [upsertNpc]⟩
      simpa [upsertNpc] using hmem
    simp [findRoomWithAgent, hhas]

/-! ## Claim C5 — players["npc-"+K] exists iff npcAssignments[K] exists -/

def npcPlayersInv (s : RoomState) : Prop :=
  ∀ K : String, (SMap.get s.players (getNpcKey K)).isSome
    = (SMap.get s.npcAssignments K).isSome

theorem npcPlayersInv_fresh : npcPlayersInv freshRoomState := by
  intro K; simp [freshRoomState, SMap.empty, SMap.get]

theorem npcPlayersInv_upsert (ctx : RoomCtx) (s : RoomState)
    (payload : NpcDeploymentPayload) (nowIso : String) (h : npcPlayersInv s) :
    npcPlayersInv (upsertNpc ctx s payload nowIso).1 := by
  intro K
  by_cases hK : K = payload.agentId
  · subst hK
    simp [upsertNpc, SMap.get_set_eq]
  · have hkey : getNpcKey payload.agentId ≠ getNpcKey K := by
      intro hc; exact hK (getNpcKey_injective _ _ hc.symm)
    simp only [upsertNpc]
    rw [SMap.get_set_ne _ _ _ _ hkey,
        SMap.get_set_ne _ _ _ _ (by intro hc; exact hK hc.symm)]
    exact h K

theorem npcPlayersInv_remove (s : RoomState) (agentId : String)
    (h : npcPlayersInv s) : npcPlayersInv (removeNpc s agentId).1 := by
  intro K
  by_cases hK : K = agentId
  · subst hK
    simp [removeNpc, SMap.get_del_eq]
  · have hkey : getNpcKey agentId ≠ getNpcKey K := by
      intro hc; exact hK (getNpcKey_injective _ _ hc.symm)
    simp only [removeNpc]
    rw [SMap.get_del_ne _ _ _ hkey,
        SMap.get_del_ne _ _ _ (by intro hc; exact hK hc.symm)]
    exact h K

theorem npcPlayersInv_apply (ctx : RoomCtx) (ops : List NpcOp) (s : RoomState)
    (h : npcPlayersInv s) : npcPlayersInv (applyNpcOps ctx s ops) := by
  induction ops generalizing s with
  | nil => exact h
  | cons op rest ih =>
      cases op with
      | upsert payload nowIso =>
          exact ih _ (npcPlayersInv_upsert ctx s payload nowIso h)
      | remove agentId =>
          exact ih _ (npcPlayersInv_remove s agentId h)

/-- C5: for every finite sequence of `upsertNpc`/`removeNpc` starting from a
fresh room, the players map holds an entry at key `"npc-"+K` exactly when the
`npcAssignments` map holds an entry at key `K`. -/
theorem players_iff_npcAssignments (ctx : RoomCtx) (ops : List NpcOp) (K : String) :
    (SMap.get (applyNpcOps ctx freshRoomState ops).players (getNpcKey K)).isSome
      = (SMap.get (applyNpcOps ctx freshRoomState ops).npcAssignments K).isSome :=
  npcPlayersInv_apply ctx ops freshRoomState npcPlayersInv_fresh K

/-! ## Claim C6 — a session-key occupies at most one computer -/

def occCount (computers : SMap String Computer) (key : String) : Nat :=
  computers.countP (fun q => q.2.hasUser key)

theorem hasUser_eq_mem (c : Computer) (k : String) :
    c.hasUser k = decide (k ∈ c.connectedUser) := by
  simp [Computer.hasUser, List.contains, List.elem_eq_mem]

theorem hasUser_delUser_self (c : Computer) (k : String) :
    (c.delUser k).hasUser k = false := by
  simp [Computer.delUser, hasUser_eq_mem, List.mem_filter]

theorem hasUser_delUser_ne (c : Computer) (k k0 : String) (h : k ≠ k0) :
    (c.delUser k0).hasUser k = c.hasUser k := by
  simp [Computer.delUser, hasUser_eq_mem, List.mem_filter, h]

theorem hasUser_addUser_self (c : Computer) (k : String) :
    (c.addUser k).hasUser k = true := by
  by_cases h : c.hasUser k
  · simp [Computer.addUser, h]
  · simp [Computer.addUser, h, hasUser_eq_mem]

theorem hasUser_addUser_ne (c : Computer) (k k0 : String) (h : k ≠ k0) :
    (c.addUser k0).hasUser k = c.hasUser k := by
  by_cases hc : c.hasUser k0
  · simp [Computer.addUser, hc]
  · simp [Computer.addUser, hc, hasUser_eq_mem, h]


theorem occCount_eq_zero (l : SMap String Computer) (key : String)
    (hl : ∀ q ∈ l, q.2.hasUser key = false) : occCount l key = 0 := by
  induction l with
  | nil => rfl
  | cons hd tl ih =>
      have h1 : hd.2.hasUser key = false := hl hd (List.mem_cons_self _ _)
      have h2 := ih (fun q hq => hl q (List.mem_cons_of_mem _ hq))
      simp only [occCount, List.countP_cons, h1] at h2 ⊢
      simp [h2]

theorem occCount_set_le_one (m : SMap String Computer) (k : String) (v : Computer)
    (key : String) (hm : ∀ q ∈ m, q.2.hasUser key = false) :
    occCount (SMap.set m k v) key ≤ 1 := by
  induction m with
  | nil =>
      simp only [SMap.set, occCount, List.countP_cons, List.countP_nil]
      split <;> omega
  | cons hd tl ih =>
      obtain ⟨k', v'⟩ := hd
      by_cases h : k' = k
      · subst h
        have htl : occCount tl key = 0 :=
          occCount_eq_zero tl key (fun q hq => hm q (List.mem_cons_of_mem _ hq))
        simp only [occCount] at htl
        have hset : SMap.set ((k', v') :: tl) k' v = (k', v) :: tl := by simp [SMap.set]
        rw [hset]
        simp only [occCount, List.countP_cons, htl]
        split <;> omega
      · have hv' : v'.hasUser key = false := hm (k', v') (List.mem_cons_self _ _)
        have h2 := ih (fun q hq => hm q (List.mem_cons_of_mem _ hq))
        simp only [occCount] at h2
        simp only [SMap.set, if_neg h, occCount, List.countP_cons, hv']
        simpa using h2

theorem occCount_set_congr (m : SMap String Computer) (k : String) (v w : Computer)
    (key : String) (hget : SMap.get m k = some w)
    (hv : v.hasUser key = w.hasUser key) :
    occCount (SMap.set m k v) key = occCount m key := by
  induction m with
  | nil => simp [SMap.get] at hget
  | cons hd tl ih =>
      obtain ⟨k', v'⟩ := hd
      by_cases h : k' = k
      · subst h
        simp only [SMap.get, if_pos rfl] at hget
        have hw : v' = w := by exact Option.some_inj.mp hget
        subst hw
        simp [SMap.set, occCount, List.countP_cons, hv]
      · simp only [SMap.get, if_neg h] at hget
        have h2 := ih hget
        simp only [occCount] at h2
        simp [SMap.set, h, occCount, List.countP_cons, h2]

theorem occCount_set_eq_one (m : SMap String Computer) (k : String) (v : Computer)
    (key : String) (hm : ∀ q ∈ m, q.2.hasUser key = false)
    (hget : (SMap.get m k).isSome) (hv : v.hasUser key = true) :
    occCount (SMap.set m k v) key = 1 := by
  induction m with
  | nil => simp [SMap.get] at hget
  | cons hd tl ih =>
      obtain ⟨k', v'⟩ := hd
      by_cases h : k' = k
      · subst h
        have htl : occCount tl key = 0 :=
          occCount_eq_zero tl key (fun q hq => hm q (List.mem_cons_of_mem _ hq))
        simp only [occCount] at htl
        simp [SMap.set, occCount, List.countP_cons, htl, hv]
      · have hv' : v'.hasUser key = false := hm (k', v') (List.mem_cons_self _ _)
        simp only [SMap.get, if_neg h] at hget
        have h2 := ih (fun q hq => hm q (List.mem_cons_of_mem _ hq)) hget
        simp only [occCount] at h2
        simp only [SMap.set, if_neg h, occCount, List.countP_cons, hv']
        simpa using h2

theorem mem_set_owner (m : SMap String Computer) (k : String) (v : Computer)
    (key : String) (hm : ∀ q ∈ m, q.2.hasUser key = false) :
    ∀ q ∈ SMap.set m k v, q.2.hasUser key = true → q.1 = k := by
  induction m with
  | nil =>
      intro q hq
      simp only [SMap.set, List.mem_singleton] at hq
      subst hq; intro _; rfl
  | cons hd tl ih =>
      obtain ⟨k', v'⟩ := hd
      intro q hq hqkey
      by_cases h : k' = k
      · subst h
        have hset : SMap.set ((k', v') :: tl) k' v = (k', v) :: tl := by simp [SMap.set]
        rw [hset, List.mem_cons] at hq
        rcases hq with hq | hq
        · subst hq; rfl
        · exact absurd hqkey (by simp [hm q (List.mem_cons_of_mem _ hq)])
      · simp only [SMap.set, if_neg h, List.mem_cons] at hq
        rcases hq with hq | hq
        · subst hq
          exact absurd hqkey (by simp [hm (k', v') (List.mem_cons_self _ _)])
        · exact ih (fun r hr => hm r (List.mem_cons_of_mem _ hr)) q hq hqkey

theorem keys_set_of_isSome {α β : Type} [DecidableEq α] (m : SMap α β) (k : α) (v : β)
    (h : (SMap.get m k).isSome) :
    (SMap.set m k v).map Prod.fst = m.map Prod.fst := by
  induction m with
  | nil => simp [SMap.get] at h
  | cons hd tl ih =>
      obtain ⟨k', v'⟩ := hd
      by_cases hk : k' = k
      · subst hk; simp [SMap.set]
      · simp only [SMap.get, if_neg hk] at h
        simp [SMap.set, hk, ih h]

theorem get_isSome_of_mem_keys {α β : Type} [DecidableEq α] (m : SMap α β) (k : α)
    (h : k ∈ m.map Prod.fst) : (SMap.get m k).isSome := by
  induction m with
  | nil => simp at h
  | cons hd tl ih =>
      obtain ⟨k', v'⟩ := hd
      by_cases hk : k' = k
      · simp [SMap.get, hk]
      · simp only [List.map_cons, List.mem_cons] at h
        rcases h with h | h
        · exact absurd h.symm hk
        · simp [SMap.get, hk, ih h]


theorem occCount_map_congr (m : SMap String Computer)
    (g : String × Computer → String × Computer) (key : String)
    (hg : ∀ p ∈ m, (g p).2.hasUser key = p.2.hasUser key) :
    occCount (m.map g) key = occCount m key := by
  simp only [occCount, List.countP_map]
  exact List.countP_congr (fun p hp => by
    show (g p).2.hasUser key = true ↔ p.2.hasUser key = true
    rw [hg p hp])

theorem occCount_map_zero (m : SMap String Computer)
    (g : String × Computer → String × Computer) (key : String)
    (hg : ∀ p ∈ m, (g p).2.hasUser key = false) :
    occCount (m.map g) key = 0 :=
  occCount_eq_zero _ _ (by
    intro q hq
    obtain ⟨p, hp, hgp⟩ := List.mem_map.mp hq
    rw [← hgp]
    exact hg p hp)

theorem keys_map_values (m : SMap String Computer)
    (g : String × Computer → String × Computer)
    (hg : ∀ p ∈ m, (g p).1 = p.1) :
    (m.map g).map Prod.fst = m.map Prod.fst := by
  rw [List.map_map]
  exact List.map_congr_left (fun p hp => hg p hp)

/-- Shorthand for the occupancy-clearing pass of `assignNpcToWorkstation`. -/
def clearOccupancy (computers : SMap String Computer) (playerKey : String) :
    SMap String Computer :=
  computers.map (fun p => (p.1, Computer.delUser p.2 playerKey))

theorem assign_eq_blank (computers : SMap String Computer) (pk : String)
    (payload : NpcDeploymentPayload) (hw : payload.workstationId = "") :
    assignNpcToWorkstation computers pk payload = (computers, none) := by
  simp [assignNpcToWorkstation, hw]

theorem assign_eq_unresolved (computers : SMap String Computer) (pk : String)
    (payload : NpcDeploymentPayload) (hw : payload.workstationId ≠ "")
    (hor : jsOrStr payload.computerId
      (resolveComputerIdFromWorkstation payload.workstationId) = none) :
    assignNpcToWorkstation computers pk payload = (computers, none) := by
  simp [assignNpcToWorkstation, hw, hor]

theorem assign_eq_miss (computers : SMap String Computer) (pk : String)
    (payload : NpcDeploymentPayload) (cid : String) (hw : payload.workstationId ≠ "")
    (hor : jsOrStr payload.computerId
      (resolveComputerIdFromWorkstation payload.workstationId) = some cid)
    (hget : SMap.get (clearOccupancy computers pk) cid = none) :
    assignNpcToWorkstation computers pk payload = (clearOccupancy computers pk, none) := by
  simp [assignNpcToWorkstation, clearOccupancy, hw, hor] at hget ⊢
  simp [hget]

theorem assign_eq_hit (computers : SMap String Computer) (pk : String)
    (payload : NpcDeploymentPayload) (cid : String) (target : Computer)
    (hw : payload.workstationId ≠ "")
    (hor : jsOrStr payload.computerId
      (resolveComputerIdFromWorkstation payload.workstationId) = some cid)
    (hget : SMap.get (clearOccupancy computers pk) cid = some target) :
    assignNpcToWorkstation computers pk payload
      = (SMap.set (clearOccupancy computers pk) cid (target.addUser pk), some cid) := by
  simp [assignNpcToWorkstation, clearOccupancy, hw, hor] at hget ⊢
  simp [hget]

theorem clearOccupancy_all_false (computers : SMap String Computer) (pk : String) :
    ∀ q ∈ clearOccupancy computers pk, q.2.hasUser pk = false := by
  intro q hq
  obtain ⟨p, _, hp⟩ := List.mem_map.mp hq
  rw [← hp]
  exact hasUser_delUser_self p.2 pk

theorem assignNpc_preserves (computers : SMap String Computer) (pk : String)
    (payload : NpcDeploymentPayload) (hinv : ∀ key, occCount computers key ≤ 1) :
    (∀ key, occCount (assignNpcToWorkstation computers pk payload).1 key ≤ 1) ∧
    (assignNpcToWorkstation computers pk payload).1.map Prod.fst
      = computers.map Prod.fst := by
  have hclearcount : ∀ key, occCount (clearOccupancy computers pk) key ≤ 1 := by
    intro key
    unfold clearOccupancy
    by_cases hkey : key = pk
    · rw [hkey]
      rw [occCount_map_zero computers (fun p => (p.1, Computer.delUser p.2 pk)) pk
        (fun p _ => hasUser_delUser_self p.2 pk)]
      omega
    · rw [occCount_map_congr computers (fun p => (p.1, Computer.delUser p.2 pk)) key
        (fun p _ => hasUser_delUser_ne p.2 key pk hkey)]
      exact hinv key
  have hclearkeys : (clearOccupancy computers pk).map Prod.fst
      = computers.map Prod.fst :=
    keys_map_values computers (fun p => (p.1, Computer.delUser p.2 pk)) (fun p _ => rfl)
  by_cases hw : payload.workstationId = ""
  · rw [assign_eq_blank computers pk payload hw]
    exact ⟨hinv, rfl⟩
  · cases hor : jsOrStr payload.computerId
        (resolveComputerIdFromWorkstation payload.workstationId) with
    | none =>
        rw [assign_eq_unresolved computers pk payload hw hor]
        exact ⟨hinv, rfl⟩
    | some cid =>
        cases hget : SMap.get (clearOccupancy computers pk) cid with
        | none =>
            rw [assign_eq_miss computers pk payload cid hw hor hget]
            exact ⟨hclearcount, hclearkeys⟩
        | some target =>
            rw [assign_eq_hit computers pk payload cid target hw hor hget]
            refine ⟨?_, ?_⟩
            · intro key
              by_cases hkey : key = pk
              · rw [hkey]
                exact occCount_set_le_one _ _ _ _ (clearOccupancy_all_false computers pk)
              · rw [occCount_set_congr _ _ _ target _ hget
                  (hasUser_addUser_ne target key pk hkey)]
                exact hclearcount key
            · rw [keys_set_of_isSome _ _ _ (by simp [hget])]
              exact hclearkeys

/-- Occupancy invariant: every session key sits in at most one computer, and
the computer map keeps the five slots seeded at `onCreate`. -/
def occInv (s : RoomState) : Prop :=
  (∀ key, occCount s.computers key ≤ 1) ∧
  s.computers.map Prod.fst = ["0", "1", "2", "3", "4"]

theorem occInv_fresh : occInv freshRoomState := by
  constructor
  · intro key
    simp [freshRoomState, occCount, List.countP_cons, Computer.hasUser, List.contains]
  · rfl

theorem upsertNpc_computers (ctx : RoomCtx) (s : RoomState)
    (payload : NpcDeploymentPayload) (nowIso : String) :
    (upsertNpc ctx s payload nowIso).1.computers
      = (assignNpcToWorkstation s.computers (getNpcKey payload.agentId) payload).1 := by
  simp only [upsertNpc]

theorem occInv_upsert (ctx : RoomCtx) (s : RoomState) (payload : NpcDeploymentPayload)
    (nowIso : String) (h : occInv s) : occInv (upsertNpc ctx s payload nowIso).1 := by
  obtain ⟨hcount, hkeys⟩ := h
  have hpres := assignNpc_preserves s.computers (getNpcKey payload.agentId) payload hcount
  rw [occInv, upsertNpc_computers]
  exact ⟨hpres.1, by rw [hpres.2, hkeys]⟩

theorem occInv_remove (s : RoomState) (agentId : String) (h : occInv s) :
    occInv (removeNpc s agentId).1 := by
  obtain ⟨hcount, hkeys⟩ := h
  constructor
  · intro key
    by_cases hkey : key = getNpcKey agentId
    · subst hkey
      simp only [removeNpc]
      rw [occCount_map_zero s.computers
        (fun p => (p.1, if p.2.hasUser (getNpcKey agentId) = true
          then p.2.delUser (getNpcKey agentId) else p.2))
        (getNpcKey agentId)
        (fun p _ => by
          by_cases hc : p.2.hasUser (getNpcKey agentId) <;>
            simp [hc, hasUser_delUser_self])]
      omega
    · simp only [removeNpc]
      rw [occCount_map_congr s.computers
        (fun p => (p.1, if p.2.hasUser (getNpcKey agentId) = true
          then p.2.delUser (getNpcKey agentId) else p.2))
        key
        (fun p _ => by
          by_cases hc : p.2.hasUser (getNpcKey agentId) <;>
            simp [hc, hasUser_delUser_ne p.2 key (getNpcKey agentId) hkey])]
      exact hcount key
  · simp only [removeNpc]
    rw [keys_map_values s.computers
      (fun p => (p.1, if p.2.hasUser (getNpcKey agentId) = true
        then p.2.delUser (getNpcKey agentId) else p.2))
      (fun p _ => rfl), hkeys]

theorem occInv_apply (ctx : RoomCtx) (ops : List NpcOp) (s : RoomState)
    (h : occInv s) : occInv (applyNpcOps ctx s ops) := by
  induction ops generalizing s with
  | nil => exact h
  | cons op rest ih =>
      cases op with
      | upsert payload nowIso => exact ih _ (occInv_upsert ctx s payload nowIso h)
      | remove agentId => exact ih _ (occInv_remove s agentId h)

theorem resolve_seat_shape (w cid : String)
    (h : resolveComputerIdFromWorkstation w = some cid) :
    w = "design-studio" ∧ cid = "0" := by
  simp only [resolveComputerIdFromWorkstation, workstationSeatTable, SMap.get] at h
  by_cases hw : "design-studio" = w
  · simp only [if_pos hw] at h
    exact ⟨hw.symm, (Option.some_inj.mp h).symm⟩
  · simp [if_neg hw] at h

/-- C6: for every finite sequence of `upsertNpc`/`removeNpc` from a fresh
room, each session-key occupies at most one computer's `connectedUser` set;
and after an `upsertNpc` whose `workstationId` resolves to a computer id
(and whose payload carries no overriding `computerId`), the NPC session-key
sits in exactly that computer's set and no other.  The workstation table is
modelled from the spec (shared module absent from the sources). -/
theorem npc_session_at_most_one_computer (ctx : RoomCtx) (ops : List NpcOp) :
    (∀ key, occCount (applyNpcOps ctx freshRoomState ops).computers key ≤ 1) ∧
    (∀ (payload : NpcDeploymentPayload) (nowIso cid : String),
      truthyStr payload.computerId = none →
      resolveComputerIdFromWorkstation payload.workstationId = some cid →
      (∃ c, SMap.get (upsertNpc ctx (applyNpcOps ctx freshRoomState ops) payload
          nowIso).1.computers cid = some c ∧
        c.hasUser (getNpcKey payload.agentId) = true) ∧
      occCount (upsertNpc ctx (applyNpcOps ctx freshRoomState ops) payload
        nowIso).1.computers (getNpcKey payload.agentId) = 1 ∧
      (∀ q ∈ (upsertNpc ctx (applyNpcOps ctx freshRoomState ops) payload
          nowIso).1.computers,
        q.2.hasUser (getNpcKey payload.agentId) = true → q.1 = cid)) := by
  obtain ⟨hcount, hkeys⟩ := occInv_apply ctx ops freshRoomState occInv_fresh
  refine ⟨hcount, ?_⟩
  intro payload nowIso cid h1 h2
  obtain ⟨hwds, hcid⟩ := resolve_seat_shape _ _ h2
  have hw : payload.workstationId ≠ "" := by rw [hwds]; decide
  have hor : jsOrStr payload.computerId
      (resolveComputerIdFromWorkstation payload.workstationId) = some cid := by
    simp [jsOrStr, h1, h2]
  have hclearkeys : (clearOccupancy (applyNpcOps ctx freshRoomState ops).computers
      (getNpcKey payload.agentId)).map Prod.fst
      = (applyNpcOps ctx freshRoomState ops).computers.map Prod.fst :=
    keys_map_values _ (fun p => (p.1, Computer.delUser p.2 (getNpcKey payload.agentId)))
      (fun p _ => rfl)
  have hcidmem : cid ∈ (clearOccupancy (applyNpcOps ctx freshRoomState ops).computers
      (getNpcKey payload.agentId)).map Prod.fst := by
    rw [hclearkeys, hkeys, hcid]; decide
  have hsome := get_isSome_of_mem_keys _ _ hcidmem
  obtain ⟨target, hget⟩ := Option.isSome_iff_exists.mp hsome
  have hallf := clearOccupancy_all_false
    (applyNpcOps ctx freshRoomState ops).computers (getNpcKey payload.agentId)
  rw [upsertNpc_computers, assign_eq_hit _ _ _ _ target hw hor hget]
  refine ⟨⟨target.addUser (getNpcKey payload.agentId), ?_, ?_⟩, ?_, ?_⟩
  · exact SMap.get_set_eq _ _ _
  · exact hasUser_addUser_self _ _
  · exact occCount_set_eq_one _ _ _ _ hallf (by simp [hget])
      (hasUser_addUser_self _ _)
  · exact mem_set_owner _ _ _ _ hallf

def c6Ctx : RoomCtx :=
  { roomId := "r6", name := "beta", namespaceSlug := some "beta" }

def c6Payload : NpcDeploymentPayload :=
  { agentId := "a.beta.office.xyz", name := "Bee", avatarId := "ash",
    workstationId := "design-studio", position := some (800, 200),
    role := none, officeId := none, computerId := none,
    voiceAgentId := none, namespaceSlug := none }

theorem npc_session_at_most_one_computer_witness :
    truthyStr c6Payload.computerId = none ∧
    resolveComputerIdFromWorkstation c6Payload.workstationId = some "0" ∧
    occCount (upsertNpc c6Ctx (applyNpcOps c6Ctx freshRoomState []) c6Payload
      "2026-01-01T00:00:00.000Z").1.computers (getNpcKey c6Payload.agentId) = 1 :=
  ⟨by decide, by decide,
    ((npc_session_at_most_one_computer c6Ctx []).2 c6Payload
      "2026-01-01T00:00:00.000Z" "0" (by decide) (by decide)).2.1⟩

/-! ## Manager token verifier (server/lib/managerToken.ts)

Tokens are JavaScript strings, modelled as `List Char`; decoded buffers are
byte lists (`List Nat`, each < 256).  `crypto.createHmac('sha256', …)` is an
external primitive: the verifier is parameterised by the keyed function
`hmac : secret → message → bytes`.  Base64 semantics follow Node's
forgiving decoder (`Buffer.from(x, 'base64')`): characters outside the
alphabet — including `=` padding — are skipped, six-bit values are packed,
and trailing bits short of a byte are dropped. -/

/-- Value of a standard-alphabet base64 character (`+`, `/`); out-of-alphabet
characters (including `=`) decode to nothing. -/
def b64StdVal (c : Char) : Option Nat :=
  if 'A' ≤ c ∧ c ≤ 'Z' then some (c.toNat - 65)
  else if 'a' ≤ c ∧ c ≤ 'z' then some (c.toNat - 97 + 26)
  else if '0' ≤ c ∧ c ≤ '9' then some (c.toNat - 48 + 52)
  else if c = '+' then some 62
  else if c = '/' then some 63
  else none

/-- Character of a six-bit value in the base64url alphabet (`-`, `_`). -/
def b64Char (v : Nat) : Char :=
  if v < 26 then Char.ofNat (65 + v)
  else if v < 52 then Char.ofNat (97 + (v - 26))
  else if v < 62 then Char.ofNat (48 + (v - 52))
  else if v = 62 then '-'
  else '_'

/-- Membership in the base64url alphabet (`BASE64_URL_REGEXP`). -/
def isB64UrlChar (c : Char) : Bool :=
  (('A' ≤ c ∧ c ≤ 'Z') ∨ ('a' ≤ c ∧ c ≤ 'z') ∨ ('0' ≤ c ∧ c ≤ '9') ∨
    c = '-' ∨ c = '_' : Prop)

/-- Bytes → six-bit groups, final group padded with zero bits (base64url
encoding without padding; modelled from the spec's token format). -/
def b64EncodeVals : List Nat → List Nat
  | [] => []
  | [b0] => [b0 / 4, (b0 % 4) * 16]
  | [b0, b1] => [b0 / 4, (b0 % 4) * 16 + b1 / 16, (b1 % 16) * 4]
  | b0 :: b1 :: b2 :: rest =>
      (b0 / 4) :: ((b0 % 4) * 16 + b1 / 16) :: ((b1 % 16) * 4 + b2 / 64)
        :: (b2 % 64) :: b64EncodeVals rest

def b64Encode (bytes : List Nat) : List Char :=
  (b64EncodeVals bytes).map b64Char

/-- Six-bit groups → bytes; trailing bits short of a byte are dropped
(Node's forgiving base64 decoder). -/
def b64DecodeVals : List Nat → List Nat
  | v0 :: v1 :: v2 :: v3 :: rest =>
      (v0 * 4 + v1 / 16) :: ((v1 % 16) * 16 + v2 / 4) :: ((v2 % 4) * 64 + v3)
        :: b64DecodeVals rest
  | [v0, v1] => [v0 * 4 + v1 / 16]
  | [v0, v1, v2] => [v0 * 4 + v1 / 16, (v1 % 16) * 16 + v2 / 4]
  | _ => []

/-- `Buffer.from(s, 'base64')`. -/
def nodeB64Decode (s : List Char) : List Nat :=
  b64DecodeVals (s.filterMap b64StdVal)

/-- The `-`/`_` → `+`/`/` character swap of `normalizeBase64Url`. -/
def normB64Char (c : Char) : Char :=
  if c = '-' then '+' else if c = '_' then '/' else c

/-- `normalizeBase64Url` / `decodeBase64UrlSegment`'s normalisation step:
swap the url alphabet back to the standard one and re-attach `=` padding
(the decoder skips `=`, so padding never changes the decoded bytes). -/
def normalizeBase64Url (s : List Char) : List Char :=
  let normalized := s.map normB64Char
  let pad := normalized.length % 4
  if pad = 0 then normalized else normalized ++ List.replicate (4 - pad) '='

theorem b64EncodeVals_lt (bytes : List Nat) (h : ∀ b ∈ bytes, b < 256) :
    ∀ v ∈ b64EncodeVals bytes, v < 64 := by
  induction bytes using b64EncodeVals.induct with
  | case1 => intro v hv; simp [b64EncodeVals] at hv
  | case2 b0 =>
      have hb0 := h b0 (by simp)
      intro v hv
      simp [b64EncodeVals] at hv
      rcases hv with hv | hv <;> omega
  | case3 b0 b1 =>
      have hb0 := h b0 (by simp)
      have hb1 := h b1 (by simp)
      intro v hv
      simp [b64EncodeVals] at hv
      rcases hv with hv | hv | hv <;> omega
  | case4 b0 b1 b2 rest ih =>
      have hb0 := h b0 (by simp)
      have hb1 := h b1 (by simp)
      have hb2 := h b2 (by simp)
      have ih' := ih (fun b hb => h b (by simp [hb]))
      intro v hv
      simp only [b64EncodeVals, List.mem_cons] at hv
      rcases hv with hv | hv | hv | hv | hv
      · omega
      · omega
      · omega
      · omega
      · exact ih' v hv

theorem b64DecodeVals_encodeVals (bytes : List Nat) (h : ∀ b ∈ bytes, b < 256) :
    b64DecodeVals (b64EncodeVals bytes) = bytes := by
  induction bytes using b64EncodeVals.induct with
  | case1 => rfl
  | case2 b0 =>
      have hb0 := h b0 (by simp)
      simp only [b64EncodeVals, b64DecodeVals]
      congr 1
      omega
  | case3 b0 b1 =>
      have hb0 := h b0 (by simp)
      have hb1 := h b1 (by simp)
      simp only [b64EncodeVals, b64DecodeVals]
      congr 1
      · omega
      · congr 1; omega
  | case4 b0 b1 b2 rest ih =>
      have hb0 := h b0 (by simp)
      have hb1 := h b1 (by simp)
      have hb2 := h b2 (by simp)
      have ih' := ih (fun b hb => h b (by simp [hb]))
      simp only [b64EncodeVals, b64DecodeVals, ih']
      congr 1
      · omega
      · congr 1
        · omega
        · congr 1; omega

theorem b64Char_roundtrip_fin :
    ∀ v : Fin 64, b64StdVal (normB64Char (b64Char v.val)) = some v.val := by
  decide

theorem b64Char_roundtrip (v : Nat) (h : v < 64) :
    b64StdVal (normB64Char (b64Char v)) = some v :=
  b64Char_roundtrip_fin ⟨v, h⟩

theorem filterMap_b64_chars (vals : List Nat) (h : ∀ v ∈ vals, v < 64) :
    ((vals.map b64Char).map normB64Char).filterMap b64StdVal = vals := by
  induction vals with
  | nil => rfl
  | cons v rest ih =>
      have hv := h v (by simp)
      have ih' := ih (fun w hw => h w (by simp [hw]))
      simp only [List.map_cons, List.filterMap_cons, b64Char_roundtrip v hv, ih']

/-- ASCII bytes of a Lean string literal (used for JSON key names). -/
def strBytes (s : String) : List Nat := s.data.map Char.toNat

/-- `ManagerTokenPayload` (server/lib/managerToken.ts).  String values are
UTF-8 byte lists; `exp`/`iat` are non-negative integers (unix seconds).
Free-form extra keys of the TypeScript index signature are accepted by the
parser and dropped. -/
structure ManagerTokenPayload where
  agentId : Option (List Nat)
  «namespace» : Option (List Nat)
  namespaceSlug : Option (List Nat)
  officeId : Option (List Nat)
  exp : Option Nat
  iat : Option Nat
  jti : Option (List Nat)
  deriving DecidableEq, Repr

def emptyPayload : ManagerTokenPayload :=
  { agentId := none, «namespace» := none, namespaceSlug := none,
    officeId := none, exp := none, iat := none, jti := none }

/-- JSON scalar values occurring in a token payload. -/
inductive JVal where
  | jstr (bytes : List Nat)
  | jnum (n : Nat)
  deriving DecidableEq, Repr

/-- `"…"` (byte 34 is the double quote; escaping is not modelled, so
string contents are assumed quote- and backslash-free). -/
def renderJStr (b : List Nat) : List Nat := 34 :: (b ++ [34])

/-- Little-endian decimal digits with explicit fuel (so the kernel can
evaluate it; agrees with `Nat.digits 10`). -/
def natDigitsAux : Nat → Nat → List Nat
  | 0, _ => []
  | fuel + 1, n => if n = 0 then [] else (n % 10) :: natDigitsAux fuel (n / 10)

def natDecimalDigits (n : Nat) : List Nat := natDigitsAux (n + 1) n

theorem natDigitsAux_eq (fuel n : Nat) (h : n ≤ fuel) :
    natDigitsAux fuel n = Nat.digits 10 n := by
  induction fuel generalizing n with
  | zero =>
      have : n = 0 := by omega
      subst this
      simp [natDigitsAux]
  | succ f ih =>
      by_cases hn : n = 0
      · subst hn; simp [natDigitsAux]
      · rw [natDigitsAux, if_neg hn]
        rw [Nat.digits_def' (by norm_num : 1 < 10) (by omega)]
        have hdiv : n / 10 ≤ f := by
          have := Nat.div_lt_self (by omega : 0 < n) (by norm_num : 1 < 10)
          omega
        rw [ih (n / 10) hdiv]

theorem natDecimalDigits_eq (n : Nat) : natDecimalDigits n = Nat.digits 10 n :=
  natDigitsAux_eq (n + 1) n (by omega)

def renderJNum (n : Nat) : List Nat :=
  if n = 0 then [48] else (natDecimalDigits n).reverse.map (fun d => 48 + d)

def renderJVal : JVal → List Nat
  | JVal.jstr b => renderJStr b
  | JVal.jnum n => renderJNum n

/-- `"key":value` (58 is `:`). -/
def renderPair (m : List Nat × JVal) : List Nat :=
  renderJStr m.1 ++ [58] ++ renderJVal m.2

/-- The members present in a payload, in canonical order. -/
def payloadPairs (p : ManagerTokenPayload) : List (List Nat × JVal) :=
  (match p.agentId with
   | none => [] | some b => [(strBytes "agentId", JVal.jstr b)]) ++
  (match p.«namespace» with
   | none => [] | some b => [(strBytes "namespace", JVal.jstr b)]) ++
  (match p.namespaceSlug with
   | none => [] | some b => [(strBytes "namespaceSlug", JVal.jstr b)]) ++
  (match p.officeId with
   | none => [] | some b => [(strBytes "officeId", JVal.jstr b)]) ++
  (match p.exp with
   | none => [] | some n => [(strBytes "exp", JVal.jnum n)]) ++
  (match p.iat with
   | none => [] | some n => [(strBytes "iat", JVal.jnum n)]) ++
  (match p.jti with
   | none => [] | some b => [(strBytes "jti", JVal.jstr b)])

/-- `JSON.stringify` of a payload: canonical object text
(123/125 are the braces, 44 the comma). -/
def stringifyPayload (p : ManagerTokenPayload) : List Nat :=
  123 :: (List.intercalate [44] ((payloadPairs p).map renderPair) ++ [125])

def isDigitByte (b : Nat) : Bool := 48 ≤ b ∧ b ≤ 57

/-- Read a JSON string body up to the closing quote. -/
def parseJStrBody : List Nat → Option (List Nat × List Nat)
  | [] => none
  | b :: rest =>
      if b = 34 then some ([], rest)
      else (parseJStrBody rest).map (fun pr => (b :: pr.1, pr.2))

/-- Read a non-negative JSON number (maximal digit run). -/
def parseJNum (s : List Nat) : Option (Nat × List Nat) :=
  let ds := s.takeWhile isDigitByte
  if ds = [] then none
  else some (ds.foldl (fun acc d => acc * 10 + (d - 48)) 0, s.dropWhile isDigitByte)

def parseJVal (s : List Nat) : Option (JVal × List Nat) :=
  match s with
  | [] => none
  | b :: rest =>
      if b = 34 then (parseJStrBody rest).map (fun pr => (JVal.jstr pr.1, pr.2))
      else (parseJNum (b :: rest)).map (fun pr => (JVal.jnum pr.1, pr.2))

/-- Read a comma-separated run of `"key":value` members. -/
def parseMembers : Nat → List Nat → Option (List (List Nat × JVal) × List Nat)
  | 0, _ => none
  | _, [] => none
  | fuel + 1, b :: rest =>
      if b = 34 then
        match parseJStrBody rest with
        | none => none
        | some (key, rest1) =>
            match rest1 with
            | [] => none
            | c :: rest2 =>
                if c = 58 then
                  match parseJVal rest2 with
                  | none => none
                  | some (v, rest3) =>
                      match rest3 with
                      | d :: rest4 =>
                          if d = 44 then
                            (parseMembers fuel rest4).map
                              (fun pr => ((key, v) :: pr.1, pr.2))
                          else some ([(key, v)], rest3)
                      | [] => some ([(key, v)], [])
                else none
      else none

/-- Interpret one member, last occurrence winning, unknown keys and
type-mismatched values ignored (`JSON.parse` keeps the last duplicate;
extras beyond the recognised optional fields are dropped). -/
def applyMember (p : ManagerTokenPayload) (m : List Nat × JVal) : ManagerTokenPayload :=
  if m.1 = strBytes "agentId" then
    match m.2 with | JVal.jstr b => { p with agentId := some b } | _ => p
  else if m.1 = strBytes "namespace" then
    match m.2 with | JVal.jstr b => { p with «namespace» := some b } | _ => p
  else if m.1 = strBytes "namespaceSlug" then
    match m.2 with | JVal.jstr b => { p with namespaceSlug := some b } | _ => p
  else if m.1 = strBytes "officeId" then
    match m.2 with | JVal.jstr b => { p with officeId := some b } | _ => p
  else if m.1 = strBytes "exp" then
    match m.2 with | JVal.jnum n => { p with exp := some n } | _ => p
  else if m.1 = strBytes "iat" then
    match m.2 with | JVal.jnum n => { p with iat := some n } | _ => p
  else if m.1 = strBytes "jti" then
    match m.2 with | JVal.jstr b => { p with jti := some b } | _ => p
  else p

/-- `JSON.parse` restricted to the canonical flat-object form the token
pipeline produces: an object of string/number members. -/
def parsePayload (s : List Nat) : Option ManagerTokenPayload :=
  match s with
  | 123 :: rest =>
      if rest = [125] then some emptyPayload
      else
        match parseMembers (rest.length + 1) rest with
        | some (members, closing) =>
            if closing = [125] then
              some (members.foldl applyMember emptyPayload)
            else none
        | none => none
  | _ => none

theorem parseJStrBody_exact (b rest : List Nat) (h : 34 ∉ b) :
    parseJStrBody (b ++ 34 :: rest) = some (b, rest) := by
  induction b with
  | nil => simp [parseJStrBody]
  | cons x xs ih =>
      have hx : x ≠ 34 := fun hc => h (by simp [hc])
      have ih' := ih (fun hc => h (List.mem_cons_of_mem _ hc))
      simp [parseJStrBody, hx, ih']

theorem span_exact (P : Nat → Bool) (l rest : List Nat)
    (hl : ∀ x ∈ l, P x = true)
    (hr : ∀ y, rest.head? = some y → P y = false) :
    (l ++ rest).takeWhile P = l ∧ (l ++ rest).dropWhile P = rest := by
  induction l with
  | nil =>
      cases rest with
      | nil => simp
      | cons y ys =>
          have := hr y rfl
          simp [List.takeWhile, List.dropWhile, this]
  | cons x xs ih =>
      have hx := hl x (by simp)
      have ih' := ih (fun z hz => hl z (by simp [hz]))
      simp [List.takeWhile, List.dropWhile, hx, ih'.1, ih'.2]

theorem renderJNum_digits (n : Nat) :
    ∀ x ∈ renderJNum n, 48 ≤ x ∧ x ≤ 57 := by
  intro x hx
  by_cases h : n = 0
  · simp [renderJNum, h] at hx
    omega
  · simp only [renderJNum, natDecimalDigits_eq, if_neg h] at hx
    obtain ⟨d, hd, hdx⟩ := List.mem_map.mp hx
    have hd' : d ∈ Nat.digits 10 n := List.mem_reverse.mp hd
    have := Nat.digits_lt_base (by norm_num) hd'
    omega

theorem renderJNum_ne_nil (n : Nat) : renderJNum n ≠ [] := by
  by_cases h : n = 0
  · simp [renderJNum, h]
  · simp only [renderJNum, natDecimalDigits_eq, if_neg h]
    intro hc
    have : Nat.digits 10 n ≠ [] := Nat.digits_ne_nil_iff_ne_zero.mpr h
    simp at hc
    exact this hc

theorem foldl_digits_value (ds : List Nat) (acc : Nat)
    (h : ∀ d ∈ ds, d < 10) :
    (ds.reverse.map (fun d => 48 + d)).foldl (fun a d => a * 10 + (d - 48)) acc
      = acc * 10 ^ ds.length + Nat.ofDigits 10 ds := by
  induction ds generalizing acc with
  | nil => simp
  | cons d ds' ih =>
      have hd := h d (by simp)
      have ih' := ih acc (fun x hx => h x (by simp [hx]))
      simp only [List.reverse_cons, List.map_append, List.map_cons, List.map_nil,
        List.foldl_append, List.foldl_cons, List.foldl_nil]
      rw [ih']
      have : 48 + d - 48 = d := by omega
      rw [this]
      simp only [Nat.ofDigits_cons, List.length_cons]
      ring

theorem parseJNum_render (n : Nat) (rest0 : List Nat)
    (hr : ∀ y, rest0.head? = some y → isDigitByte y = false) :
    parseJNum (renderJNum n ++ rest0) = some (n, rest0) := by
  have hdig : ∀ x ∈ renderJNum n, isDigitByte x = true := by
    intro x hx
    have := renderJNum_digits n x hx
    simp [isDigitByte]
    omega
  obtain ⟨htake, hdrop⟩ := span_exact isDigitByte (renderJNum n) rest0 hdig hr
  simp only [parseJNum, htake, hdrop, renderJNum_ne_nil n, if_neg (renderJNum_ne_nil n)]
  by_cases h : n = 0
  · simp [renderJNum, h]
  · simp only [renderJNum, natDecimalDigits_eq, if_neg h]
    have := foldl_digits_value (Nat.digits 10 n) 0
      (fun d hd => Nat.digits_lt_base (by norm_num) hd)
    rw [this]
    simp [Nat.ofDigits_digits]

/-- A member whose rendering the parser can read back exactly. -/
def goodPair (m : List Nat × JVal) : Prop :=
  34 ∉ m.1 ∧ (match m.2 with | JVal.jstr b => 34 ∉ b | JVal.jnum _ => True)

theorem parseJVal_render (v : JVal) (rest0 : List Nat)
    (hgood : match v with | JVal.jstr b => 34 ∉ b | JVal.jnum _ => True)
    (hr : ∀ y, rest0.head? = some y → isDigitByte y = false ∧ y ≠ 34) :
    parseJVal (renderJVal v ++ rest0) = some (v, rest0) := by
  cases v with
  | jstr b =>
      simp only [renderJVal, renderJStr]
      have : (34 :: (b ++ [34])) ++ rest0 = 34 :: (b ++ 34 :: rest0) := by simp
      rw [this]
      simp [parseJVal, parseJStrBody_exact b rest0 hgood]
  | jnum n =>
      simp only [renderJVal]
      obtain ⟨d, ds, hds⟩ : ∃ d ds, renderJNum n = d :: ds := by
        cases h : renderJNum n with
        | nil => exact absurd h (renderJNum_ne_nil n)
        | cons d ds => exact ⟨d, ds, rfl⟩
      have hd : 48 ≤ d ∧ d ≤ 57 := renderJNum_digits n d (by rw [hds]; simp)
      have hd34 : d ≠ 34 := by omega
      rw [hds]
      simp only [List.cons_append, parseJVal, if_neg hd34]
      rw [← List.cons_append, ← hds, parseJNum_render n rest0 (fun y hy => (hr y hy).1)]
      rfl

theorem parseMembers_complete (ms : List (List Nat × JVal)) (fuel : Nat)
    (hgood : ∀ m ∈ ms, goodPair m) (hne : ms ≠ [])
    (hfuel : ms.length ≤ fuel) :
    parseMembers fuel (List.intercalate [44] (ms.map renderPair) ++ [125])
      = some (ms, [125]) := by
  induction ms generalizing fuel with
  | nil => exact absurd rfl hne
  | cons m ms' ih =>
      obtain ⟨key, v⟩ := m
      obtain ⟨hkey, hval⟩ := hgood (key, v) (by simp)
      obtain ⟨f, rfl⟩ : ∃ f, fuel = f + 1 := by
        cases fuel with
        | zero => simp at hfuel
        | succ f => exact ⟨f, rfl⟩
      cases ms' with
      | nil =>
          have hone : List.intercalate [44] ([(key, v)].map renderPair)
              = renderPair (key, v) := by
            simp [List.intercalate]
          rw [hone]
          have hshape : renderPair (key, v) ++ [125]
              = 34 :: (key ++ 34 :: (58 :: (renderJVal v ++ [125]))) := by
            simp [renderPair, renderJStr]
          rw [hshape]
          simp only [parseMembers, if_pos rfl, parseJStrBody_exact key _ hkey]
          rw [parseJVal_render v [125] hval (fun y hy => by
            simp at hy
            subst hy
            refine ⟨by simp [isDigitByte], by omega⟩)]
          simp
      | cons m2 ms2 =>
          have hsplit : List.intercalate [44] (((key, v) :: m2 :: ms2).map renderPair)
              = renderPair (key, v) ++ 44 :: List.intercalate [44] ((m2 :: ms2).map renderPair) := by
            simp [List.intercalate, List.intersperse]
          rw [hsplit]
          have hshape : (renderPair (key, v) ++ 44 ::
                List.intercalate [44] ((m2 :: ms2).map renderPair)) ++ [125]
              = 34 :: (key ++ 34 :: (58 :: (renderJVal v ++
                  (44 :: (List.intercalate [44] ((m2 :: ms2).map renderPair) ++ [125]))))) := by
            simp [renderPair, renderJStr]
          rw [hshape]
          simp only [parseMembers, if_pos rfl, parseJStrBody_exact key _ hkey]
          rw [parseJVal_render v _ hval (fun y hy => by
            simp at hy
            subst hy
            refine ⟨by simp [isDigitByte], by omega⟩)]
          simp only [if_pos rfl]
          rw [ih f (fun q hq => hgood q (List.mem_cons_of_mem _ hq)) (by simp) (by
            simp at hfuel ⊢
            omega)]
          rfl

theorem foldl_applyMember_pairs (p : ManagerTokenPayload) :
    (payloadPairs p).foldl applyMember emptyPayload = p := by
  obtain ⟨a, ns, nss, off, e, i, j⟩ := p
  cases a <;> cases ns <;> cases nss <;> cases off <;> cases e <;> cases i <;>
    cases j <;> rfl

/-- Bytes that `JSON.stringify` emits verbatim inside a string literal:
printable ASCII other than the quote and the backslash (escaping is not
modelled). -/
def bytesSafe (b : List Nat) : Prop := ∀ x ∈ b, 31 < x ∧ x < 128 ∧ x ≠ 34 ∧ x ≠ 92

instance (b : List Nat) : Decidable (bytesSafe b) := by
  unfold bytesSafe; infer_instance

def optSafe (o : Option (List Nat)) : Prop :=
  match o with
  | none => True
  | some b => bytesSafe b

instance (o : Option (List Nat)) : Decidable (optSafe o) := by
  unfold optSafe; cases o <;> infer_instance

def payloadSafe (p : ManagerTokenPayload) : Prop :=
  optSafe p.agentId ∧ optSafe p.«namespace» ∧ optSafe p.namespaceSlug ∧
  optSafe p.officeId ∧ optSafe p.jti

instance (p : ManagerTokenPayload) : Decidable (payloadSafe p) := by
  unfold payloadSafe; infer_instance

theorem mem_strBlock (key : String) (o : Option (List Nat)) (m : List Nat × JVal)
    (hm : m ∈ (match o with
      | none => ([] : List (List Nat × JVal))
      | some b => [(strBytes key, JVal.jstr b)])) :
    ∃ b, o = some b ∧ m = (strBytes key, JVal.jstr b) := by
  cases o with
  | none => simp at hm
  | some b =>
      simp only [List.mem_singleton] at hm
      exact ⟨b, rfl, hm⟩

theorem mem_numBlock (key : String) (o : Option Nat) (m : List Nat × JVal)
    (hm : m ∈ (match o with
      | none => ([] : List (List Nat × JVal))
      | some n => [(strBytes key, JVal.jnum n)])) :
    ∃ n, o = some n ∧ m = (strBytes key, JVal.jnum n) := by
  cases o with
  | none => simp at hm
  | some n =>
      simp only [List.mem_singleton] at hm
      exact ⟨n, rfl, hm⟩

theorem payloadPairs_good (p : ManagerTokenPayload) (h : payloadSafe p) :
    ∀ m ∈ payloadPairs p, goodPair m := by
  obtain ⟨ha, hns, hnss, hoff, hjti⟩ := h
  intro m hm
  simp only [payloadPairs, List.mem_append] at hm
  rcases hm with ((((((hm | hm) | hm) | hm) | hm) | hm) | hm)
  · obtain ⟨b, hob, rfl⟩ := mem_strBlock "agentId" p.agentId m hm
    rw [hob] at ha
    have hb : bytesSafe b := ha
    exact ⟨show (34 : Nat) ∉ strBytes "agentId" by decide,
      show (34 : Nat) ∉ b from fun hx => by have := hb 34 hx; omega⟩
  · obtain ⟨b, hob, rfl⟩ := mem_strBlock "namespace" p.«namespace» m hm
    rw [hob] at hns
    have hb : bytesSafe b := hns
    exact ⟨show (34 : Nat) ∉ strBytes "namespace" by decide,
      show (34 : Nat) ∉ b from fun hx => by have := hb 34 hx; omega⟩
  · obtain ⟨b, hob, rfl⟩ := mem_strBlock "namespaceSlug" p.namespaceSlug m hm
    rw [hob] at hnss
    have hb : bytesSafe b := hnss
    exact ⟨show (34 : Nat) ∉ strBytes "namespaceSlug" by decide,
      show (34 : Nat) ∉ b from fun hx => by have := hb 34 hx; omega⟩
  · obtain ⟨b, hob, rfl⟩ := mem_strBlock "officeId" p.officeId m hm
    rw [hob] at hoff
    have hb : bytesSafe b := hoff
    exact ⟨show (34 : Nat) ∉ strBytes "officeId" by decide,
      show (34 : Nat) ∉ b from fun hx => by have := hb 34 hx; omega⟩
  · obtain ⟨n, hon, rfl⟩ := mem_numBlock "exp" p.exp m hm
    exact ⟨show (34 : Nat) ∉ strBytes "exp" by decide, trivial⟩
  · obtain ⟨n, hon, rfl⟩ := mem_numBlock "iat" p.iat m hm
    exact ⟨show (34 : Nat) ∉ strBytes "iat" by decide, trivial⟩
  · obtain ⟨b, hob, rfl⟩ := mem_strBlock "jti" p.jti m hm
    rw [hob] at hjti
    have hb : bytesSafe b := hjti
    exact ⟨show (34 : Nat) ∉ strBytes "jti" by decide,
      show (34 : Nat) ∉ b from fun hx => by have := hb 34 hx; omega⟩

theorem strBlock_nil (key : String) (o : Option (List Nat))
    (h : (match o with
      | none => ([] : List (List Nat × JVal))
      | some b => [(strBytes key, JVal.jstr b)]) = []) : o = none := by
  cases o with
  | none => rfl
  | some b => simp at h

theorem numBlock_nil (key : String) (o : Option Nat)
    (h : (match o with
      | none => ([] : List (List Nat × JVal))
      | some n => [(strBytes key, JVal.jnum n)]) = []) : o = none := by
  cases o with
  | none => rfl
  | some n => simp at h

theorem payloadPairs_eq_nil (p : ManagerTokenPayload)
    (h : payloadPairs p = []) : p = emptyPayload := by
  simp only [payloadPairs, List.append_eq_nil] at h
  obtain ⟨⟨⟨⟨⟨⟨h1, h2⟩, h3⟩, h4⟩, h5⟩, h6⟩, h7⟩ := h
  have e1 := strBlock_nil "agentId" p.agentId h1
  have e2 := strBlock_nil "namespace" p.«namespace» h2
  have e3 := strBlock_nil "namespaceSlug" p.namespaceSlug h3
  have e4 := strBlock_nil "officeId" p.officeId h4
  have e5 := numBlock_nil "exp" p.exp h5
  have e6 := numBlock_nil "iat" p.iat h6
  have e7 := strBlock_nil "jti" p.jti h7
  obtain ⟨a, ns, nss, off, e, i, j⟩ := p
  simp only at e1 e2 e3 e4 e5 e6 e7
  subst e1 e2 e3 e4 e5 e6 e7
  rfl

theorem intercalate_renderPair_len (ms : List (List Nat × JVal)) :
    ms.length ≤ (List.intercalate [44] (ms.map renderPair)).length := by
  induction ms with
  | nil => simp
  | cons m ms' ih =>
      cases ms' with
      | nil =>
          simp [List.intercalate, renderPair, renderJStr]
      | cons m2 ms2 =>
          have hsplit : List.intercalate [44] ((m :: m2 :: ms2).map renderPair)
              = renderPair m ++ 44 :: List.intercalate [44] ((m2 :: ms2).map renderPair) := by
            simp [List.intercalate, List.intersperse]
          rw [hsplit]
          simp only [List.length_cons, List.length_append] at ih ⊢
          have hlen : 2 ≤ (renderPair m).length := by
            simp [renderPair, renderJStr]
            omega
          omega

theorem parsePayload_stringify (p : ManagerTokenPayload) (hs : payloadSafe p) :
    parsePayload (stringifyPayload p) = some p := by
  by_cases hnil : payloadPairs p = []
  · have hp := payloadPairs_eq_nil p hnil
    rw [stringifyPayload, hnil]
    have h0 : List.intercalate [44] (([] : List (List Nat × JVal)).map renderPair)
        = [] := rfl
    rw [h0]
    simp [parsePayload, hp]
  · have hlen := intercalate_renderPair_len (payloadPairs p)
    have hmslen : 1 ≤ (payloadPairs p).length := by
      cases hpp : payloadPairs p with
      | nil => exact absurd hpp hnil
      | cons x xs => simp
    have hne2 : List.intercalate [44] ((payloadPairs p).map renderPair) ++ [125]
        ≠ [125] := by
      intro hc
      have hll : (List.intercalate [44] ((payloadPairs p).map renderPair)).length + 1
          = 1 := by
        have := congrArg List.length hc
        simpa using this
      omega
    rw [stringifyPayload]
    simp only [parsePayload, if_neg hne2]
    rw [parseMembers_complete (payloadPairs p) _ (payloadPairs_good p hs) hnil
      (by simp; omega)]
    simp [foldl_applyMember_pairs]

theorem b64StdVal_eq_none : b64StdVal '=' = none := by decide

theorem filterMap_replicate_eq (n : Nat) :
    (List.replicate n '=').filterMap b64StdVal = [] := by
  induction n with
  | zero => rfl
  | succ k ih => simp [List.replicate, List.filterMap_cons, b64StdVal_eq_none, ih]

/-- Normalisation then filtering recovers exactly the six-bit groups. -/
theorem filterMap_norm_encode (bytes : List Nat) (h : ∀ b ∈ bytes, b < 256) :
    (normalizeBase64Url (b64Encode bytes)).filterMap b64StdVal
      = b64EncodeVals bytes := by
  have hvals := b64EncodeVals_lt bytes h
  simp only [normalizeBase64Url]
  split
  · rw [show (b64Encode bytes).map normB64Char
        = ((b64EncodeVals bytes).map b64Char).map normB64Char from rfl]
    exact filterMap_b64_chars _ hvals
  · rw [List.filterMap_append, filterMap_replicate_eq]
    rw [show (b64Encode bytes).map normB64Char
        = ((b64EncodeVals bytes).map b64Char).map normB64Char from rfl]
    rw [filterMap_b64_chars _ hvals]
    simp

/-- Full base64url round trip through Node's forgiving decoder. -/
theorem nodeB64Decode_encode (bytes : List Nat) (h : ∀ b ∈ bytes, b < 256) :
    nodeB64Decode (normalizeBase64Url (b64Encode bytes)) = bytes := by
  unfold nodeB64Decode
  rw [filterMap_norm_encode bytes h]
  exact b64DecodeVals_encodeVals bytes h

theorem b64Char_url_fin : ∀ v : Fin 64, isB64UrlChar (b64Char v.val) = true := by
  decide

theorem b64Encode_all_url (bytes : List Nat) (h : ∀ b ∈ bytes, b < 256) :
    ∀ ch ∈ b64Encode bytes, isB64UrlChar ch = true := by
  intro ch hch
  obtain ⟨v, hv, hvc⟩ := List.mem_map.mp hch
  have hlt := b64EncodeVals_lt bytes h v hv
  rw [← hvc]
  exact b64Char_url_fin ⟨v, hlt⟩

theorem urlChar_ne_dot (c : Char) (h : isB64UrlChar c = true) : c ≠ '.' := by
  intro hc
  rw [hc] at h
  exact absurd h (by decide)

theorem dot_notMem_b64Encode (bytes : List Nat) (h : ∀ b ∈ bytes, b < 256) :
    '.' ∉ b64Encode bytes := by
  intro hc
  exact urlChar_ne_dot '.' (b64Encode_all_url bytes h '.' hc) rfl

theorem b64EncodeVals_ne_nil (bytes : List Nat) (h : bytes ≠ []) :
    b64EncodeVals bytes ≠ [] := by
  cases bytes with
  | nil => exact absurd rfl h
  | cons b0 rest =>
      cases rest with
      | nil => simp [b64EncodeVals]
      | cons b1 rest2 =>
          cases rest2 with
          | nil => simp [b64EncodeVals]
          | cons b2 rest3 => simp [b64EncodeVals]

theorem b64Encode_ne_nil (bytes : List Nat) (h : bytes ≠ []) :
    b64Encode bytes ≠ [] := by
  simp only [b64Encode, ne_eq, List.map_eq_nil_iff]
  exact b64EncodeVals_ne_nil bytes h

/-- `String.prototype.split` with a one-character separator. -/
def splitOnChar (c : Char) : List Char → List (List Char)
  | [] => [[]]
  | x :: rest =>
      let r := splitOnChar c rest
      if x = c then [] :: r
      else
        match r with
        | [] => [[x]]
        | hd :: tl => (x :: hd) :: tl

theorem splitOnChar_ne_nil (c : Char) (s : List Char) : splitOnChar c s ≠ [] := by
  induction s with
  | nil => simp [splitOnChar]
  | cons x rest ih =>
      simp only [splitOnChar]
      by_cases hx : x = c
      · simp [hx]
      · simp only [if_neg hx]
        cases hr : splitOnChar c rest with
        | nil => simp
        | cons hd tl => simp

theorem splitOnChar_no (c : Char) (a : List Char) (h : c ∉ a) :
    splitOnChar c a = [a] := by
  induction a with
  | nil => rfl
  | cons x rest ih =>
      have hx : x ≠ c := fun hc => h (by simp [hc])
      have ih' := ih (fun hc => h (List.mem_cons_of_mem _ hc))
      simp [splitOnChar, hx, ih']

theorem splitOnChar_sep (c : Char) (a rest : List Char) (h : c ∉ a) :
    splitOnChar c (a ++ c :: rest) = a :: splitOnChar c rest := by
  induction a with
  | nil => simp [splitOnChar]
  | cons x xs ih =>
      have hx : x ≠ c := fun hc => h (by simp [hc])
      have ih' := ih (fun hc => h (List.mem_cons_of_mem _ hc))
      simp only [List.cons_append, splitOnChar, if_neg hx]
      rw [show xs.append (c :: rest) = xs ++ c :: rest from rfl, ih']

theorem splitOnChar_three (c : Char) (a b d : List Char)
    (ha : c ∉ a) (hb : c ∉ b) (hd : c ∉ d) :
    splitOnChar c (a ++ c :: (b ++ c :: d)) = [a, b, d] := by
  rw [splitOnChar_sep c a _ ha, splitOnChar_sep c b _ hb, splitOnChar_no c d hd]

instance exceptStrPayloadDecEq :
    DecidableEq (Except String ManagerTokenPayload) := fun x y =>
  match x, y with
  | Except.ok a, Except.ok b =>
      match decEq a b with
      | isTrue h => isTrue (by rw [h])
      | isFalse h => isFalse (fun hc => h (by cases hc; rfl))
  | Except.error a, Except.error b =>
      match decEq a b with
      | isTrue h => isTrue (by rw [h])
      | isFalse h => isFalse (fun hc => h (by cases hc; rfl))
  | Except.ok _, Except.error _ => isFalse (fun hc => Except.noConfusion hc)
  | Except.error _, Except.ok _ => isFalse (fun hc => Except.noConfusion hc)

/-- `decodeBase64UrlSegment`: regexp gate (`BASE64_URL_REGEXP` requires a
non-empty run of alphabet characters), then normalise and decode; the
resulting bytes stand for the decoded UTF-8 text. -/
def decodeBase64UrlSegment (segment : List Char) : Option (List Nat) :=
  if segment ≠ [] ∧ segment.all isB64UrlChar then
    some (nodeB64Decode (normalizeBase64Url segment))
  else none

/-- `verifyManagerToken` (server/lib/managerToken.ts), parameterised by the
external HMAC-SHA256 primitive and the clock (`nowMs` = `Date.now()`, so the
source's fractional-seconds comparison `nowMs/1000 > exp` is `1000*exp <
nowMs`).  `JSON.parse` failures surface as the engine's message; modelled by
a fixed marker. -/
def verifyManagerToken (hmac : List Char → List Char → List Nat)
    (nowMs : Nat) (token secret : List Char) : Except String ManagerTokenPayload :=
  if token = [] then Except.error "Token is required"
  else if secret = [] then Except.error "Manager token secret not configured"
  else
    match splitOnChar '.' token with
    | [encodedHeader, encodedBody, signature] =>
        let signingInput := encodedHeader ++ '.' :: encodedBody
        let expectedBuffer := hmac secret signingInput
        let actualBuffer := nodeB64Decode (normalizeBase64Url signature)
        if expectedBuffer.length ≠ actualBuffer.length then
          Except.error "Invalid token signature"
        else if expectedBuffer ≠ actualBuffer then
          Except.error "Invalid token signature"
        else
          match decodeBase64UrlSegment encodedBody with
          | none => Except.error "Invalid base64url segment"
          | some payloadBytes =>
              match parsePayload payloadBytes with
              | none => Except.error "Unexpected token in JSON"
              | some payload =>
                  match payload.exp with
                  | some e =>
                      if e ≠ 0 ∧ 1000 * e < nowMs then
                        Except.error "Token expired"
                      else Except.ok payload
                  | none => Except.ok payload
    | _ => Except.error "Invalid token format"

/-- Modelled from the spec: the issuer is outside this system ("does not
issue capability tokens (only verifies them)").  The spec's manager-token
format is `base64url(header) + "." + base64url(payload) + "." +
base64url(HMAC-SHA256(secret, header + "." + payload))`. -/
def signManagerToken (hmac : List Char → List Char → List Nat)
    (header : List Nat) (secret : List Char) (p : ManagerTokenPayload) :
    List Char :=
  let h := b64Encode header
  let b := b64Encode (stringifyPayload p)
  h ++ '.' :: (b ++ '.' :: b64Encode (hmac secret (h ++ '.' :: b)))

/-- Concrete keyed stand-in for the external HMAC-SHA256 primitive, used
only to instantiate witnesses and counterexamples. -/
def hmacDemo (s m : List Char) : List Nat :=
  List.replicate 32 ((s.length + m.length) % 256)

theorem mem_intercalate44 (L : List (List Nat)) (x : Nat)
    (hx : x ∈ List.intercalate [44] L) : x = 44 ∨ ∃ l ∈ L, x ∈ l := by
  induction L with
  | nil => simp [List.intercalate] at hx
  | cons a L' ih =>
      cases L' with
      | nil =>
          simp [List.intercalate] at hx
          exact Or.inr ⟨a, by simp, hx⟩
      | cons b L2 =>
          have hsplit : List.intercalate [44] (a :: b :: L2)
              = a ++ 44 :: List.intercalate [44] (b :: L2) := by
            simp [List.intercalate, List.intersperse]
          rw [hsplit] at hx
          simp only [List.mem_append, List.mem_cons] at hx
          rcases hx with hx | hx | hx
          · exact Or.inr ⟨a, by simp, hx⟩
          · exact Or.inl hx
          · rcases ih hx with h44 | ⟨l, hl, hxl⟩
            · exact Or.inl h44
            · exact Or.inr ⟨l, by simp [hl], hxl⟩

theorem renderPair_lt (key : List Nat) (v : JVal)
    (hkey : ∀ x ∈ key, x < 256)
    (hval : ∀ b, v = JVal.jstr b → ∀ x ∈ b, x < 256) :
    ∀ x ∈ renderPair (key, v), x < 256 := by
  intro x hx
  cases v with
  | jstr b =>
      have hx' : x = 34 ∨ x = 58 ∨ x ∈ key ∨ x ∈ b := by
        simp [renderPair, renderJStr, renderJVal] at hx
        tauto
      rcases hx' with hx' | hx' | hx' | hx'
      · omega
      · omega
      · exact hkey x hx'
      · exact hval b rfl x hx'
  | jnum n =>
      have hx' : x = 34 ∨ x = 58 ∨ x ∈ key ∨ x ∈ renderJNum n := by
        simp [renderPair, renderJStr, renderJVal] at hx
        tauto
      rcases hx' with hx' | hx' | hx' | hx'
      · omega
      · omega
      · exact hkey x hx'
      · have := renderJNum_digits n x hx'
        omega

theorem strBytes_lt_keys :
    (∀ x ∈ strBytes "agentId", x < 256) ∧ (∀ x ∈ strBytes "namespace", x < 256) ∧
    (∀ x ∈ strBytes "namespaceSlug", x < 256) ∧ (∀ x ∈ strBytes "officeId", x < 256) ∧
    (∀ x ∈ strBytes "exp", x < 256) ∧ (∀ x ∈ strBytes "iat", x < 256) ∧
    (∀ x ∈ strBytes "jti", x < 256) := by
  refine ⟨?_, ?_, ?_, ?_, ?_, ?_, ?_⟩ <;> decide

theorem payloadPairs_render_lt (p : ManagerTokenPayload) (hs : payloadSafe p) :
    ∀ m ∈ payloadPairs p, ∀ x ∈ renderPair m, x < 256 := by
  obtain ⟨ha, hns, hnss, hoff, hjti⟩ := hs
  obtain ⟨k1, k2, k3, k4, k5, k6, k7⟩ := strBytes_lt_keys
  intro m hm
  simp only [payloadPairs, List.mem_append] at hm
  rcases hm with ((((((hm | hm) | hm) | hm) | hm) | hm) | hm)
  · obtain ⟨b, hob, rfl⟩ := mem_strBlock "agentId" p.agentId m hm
    rw [hob] at ha
    have hb : bytesSafe b := ha
    exact renderPair_lt _ _ k1 (fun b' hb' x hx => by
      cases hb'
      have := hb x hx
      omega)
  · obtain ⟨b, hob, rfl⟩ := mem_strBlock "namespace" p.«namespace» m hm
    rw [hob] at hns
    have hb : bytesSafe b := hns
    exact renderPair_lt _ _ k2 (fun b' hb' x hx => by
      cases hb'
      have := hb x hx
      omega)
  · obtain ⟨b, hob, rfl⟩ := mem_strBlock "namespaceSlug" p.namespaceSlug m hm
    rw [hob] at hnss
    have hb : bytesSafe b := hnss
    exact renderPair_lt _ _ k3 (fun b' hb' x hx => by
      cases hb'
      have := hb x hx
      omega)
  · obtain ⟨b, hob, rfl⟩ := mem_strBlock "officeId" p.officeId m hm
    rw [hob] at hoff
    have hb : bytesSafe b := hoff
    exact renderPair_lt _ _ k4 (fun b' hb' x hx => by
      cases hb'
      have := hb x hx
      omega)
  · obtain ⟨n, hon, rfl⟩ := mem_numBlock "exp" p.exp m hm
    exact renderPair_lt _ _ k5 (fun b' hb' => by cases hb')
  · obtain ⟨n, hon, rfl⟩ := mem_numBlock "iat" p.iat m hm
    exact renderPair_lt _ _ k6 (fun b' hb' => by cases hb')
  · obtain ⟨b, hob, rfl⟩ := mem_strBlock "jti" p.jti m hm
    rw [hob] at hjti
    have hb : bytesSafe b := hjti
    exact renderPair_lt _ _ k7 (fun b' hb' x hx => by
      cases hb'
      have := hb x hx
      omega)

theorem stringifyPayload_lt (p : ManagerTokenPayload) (hs : payloadSafe p) :
    ∀ x ∈ stringifyPayload p, x < 256 := by
  intro x hx
  have hx' : x = 123 ∨ x = 125 ∨
      x ∈ List.intercalate [44] ((payloadPairs p).map renderPair) := by
    simp only [stringifyPayload, List.mem_cons, List.mem_append,
      List.mem_singleton] at hx
    tauto
  rcases hx' with hx' | hx' | hx'
  · omega
  · omega
  · rcases mem_intercalate44 _ x hx' with h44 | ⟨l, hl, hxl⟩
    · omega
    · obtain ⟨m, hm, hml⟩ := List.mem_map.mp hl
      rw [← hml] at hxl
      exact payloadPairs_render_lt p hs m hm x hxl

/-- Token pipeline: verifying a freshly signed token reaches the expiry
check with the original payload. -/
theorem verify_sign_master (hmac : List Char → List Char → List Nat)
    (nowMs : Nat) (header : List Nat) (secret : List Char)
    (p : ManagerTokenPayload) (hsecret : secret ≠ [])
    (hheader : ∀ x ∈ header, x < 256)
    (hhout : ∀ x ∈ hmac secret
      (b64Encode header ++ '.' :: b64Encode (stringifyPayload p)), x < 256)
    (hsafe : payloadSafe p) :
    verifyManagerToken hmac nowMs (signManagerToken hmac header secret p) secret
      = (match p.exp with
         | some e => if e ≠ 0 ∧ 1000 * e < nowMs then Except.error "Token expired"
                     else Except.ok p
         | none => Except.ok p) := by
  have hslt := stringifyPayload_lt p hsafe
  have hsigneq : signManagerToken hmac header secret p
      = b64Encode header ++ '.' :: (b64Encode (stringifyPayload p) ++ '.' ::
          b64Encode (hmac secret
            (b64Encode header ++ '.' :: b64Encode (stringifyPayload p)))) := rfl
  have htok : b64Encode header ++ '.' :: (b64Encode (stringifyPayload p) ++ '.' ::
      b64Encode (hmac secret
        (b64Encode header ++ '.' :: b64Encode (stringifyPayload p)))) ≠ [] := by
    intro hc
    have := congrArg List.length hc
    simp at this
  have hdh : '.' ∉ b64Encode header := dot_notMem_b64Encode header hheader
  have hdb : '.' ∉ b64Encode (stringifyPayload p) := dot_notMem_b64Encode _ hslt
  have hds : '.' ∉ b64Encode (hmac secret
      (b64Encode header ++ '.' :: b64Encode (stringifyPayload p))) :=
    dot_notMem_b64Encode _ hhout
  have hact : nodeB64Decode (normalizeBase64Url (b64Encode (hmac secret
      (b64Encode header ++ '.' :: b64Encode (stringifyPayload p)))))
      = hmac secret (b64Encode header ++ '.' :: b64Encode (stringifyPayload p)) :=
    nodeB64Decode_encode _ hhout
  have hbody : decodeBase64UrlSegment (b64Encode (stringifyPayload p))
      = some (stringifyPayload p) := by
    unfold decodeBase64UrlSegment
    rw [if_pos ⟨b64Encode_ne_nil _ (by simp [stringifyPayload]),
      List.all_eq_true.mpr (fun ch hch => b64Encode_all_url _ hslt ch hch)⟩]
    rw [nodeB64Decode_encode _ hslt]
  rw [hsigneq]
  simp only [verifyManagerToken]
  rw [if_neg htok, if_neg (by exact fun hc => hsecret hc)]
  rw [splitOnChar_three '.' _ _ _ hdh hdb hds]
  simp only [hact, hbody, parsePayload_stringify p hsafe]
  simp

/-- Token pipeline: verifying with a secret whose HMAC differs fails at the
signature comparison. -/
theorem verify_sign_wrong_secret (hmac : List Char → List Char → List Nat)
    (nowMs : Nat) (header : List Nat) (secret secret' : List Char)
    (p : ManagerTokenPayload) (hsecret' : secret' ≠ [])
    (hheader : ∀ x ∈ header, x < 256)
    (hhout : ∀ x ∈ hmac secret
      (b64Encode header ++ '.' :: b64Encode (stringifyPayload p)), x < 256)
    (hsafe : payloadSafe p)
    (hne : hmac secret' (b64Encode header ++ '.' :: b64Encode (stringifyPayload p))
      ≠ hmac secret (b64Encode header ++ '.' :: b64Encode (stringifyPayload p))) :
    verifyManagerToken hmac nowMs (signManagerToken hmac header secret p) secret'
      = Except.error "Invalid token signature" := by
  have hslt := stringifyPayload_lt p hsafe
  have hsigneq : signManagerToken hmac header secret p
      = b64Encode header ++ '.' :: (b64Encode (stringifyPayload p) ++ '.' ::
          b64Encode (hmac secret
            (b64Encode header ++ '.' :: b64Encode (stringifyPayload p)))) := rfl
  have htok : b64Encode header ++ '.' :: (b64Encode (stringifyPayload p) ++ '.' ::
      b64Encode (hmac secret
        (b64Encode header ++ '.' :: b64Encode (stringifyPayload p)))) ≠ [] := by
    intro hc
    have := congrArg List.length hc
    simp at this
  have hdh : '.' ∉ b64Encode header := dot_notMem_b64Encode header hheader
  have hdb : '.' ∉ b64Encode (stringifyPayload p) := dot_notMem_b64Encode _ hslt
  have hds : '.' ∉ b64Encode (hmac secret
      (b64Encode header ++ '.' :: b64Encode (stringifyPayload p))) :=
    dot_notMem_b64Encode _ hhout
  have hact : nodeB64Decode (normalizeBase64Url (b64Encode (hmac secret
      (b64Encode header ++ '.' :: b64Encode (stringifyPayload p)))))
      = hmac secret (b64Encode header ++ '.' :: b64Encode (stringifyPayload p)) :=
    nodeB64Decode_encode _ hhout
  rw [hsigneq]
  simp only [verifyManagerToken]
  rw [if_neg htok, if_neg (by exact fun hc => hsecret' hc)]
  rw [splitOnChar_three '.' _ _ _ hdh hdb hds]
  simp only [hact]
  by_cases hl : (hmac secret'
      (b64Encode header ++ '.' :: b64Encode (stringifyPayload p))).length
      = (hmac secret
        (b64Encode header ++ '.' :: b64Encode (stringifyPayload p))).length
  · rw [if_neg (by simpa using hl), if_pos hne]
  · rw [if_pos hl]

/-! ## Claim C3 — token round trip and tamper detection -/

/-- C3 (amended): for every secret and every (escape-free) payload with no
`exp` or a future `exp`, verifying the spec-format token signed with the
same secret returns the payload unchanged; and verifying with a secret
whose HMAC of the signing input differs fails with the signature error.
The claim's further assertion that any tampering of one of the three
segments throws is refuted by `verifyManagerToken_tamper_cex`: the
signature segment's final base64url character carries two unused bits, so
a different token can decode to the same signature bytes. -/
theorem verifyManagerToken_roundtrip (hmac : List Char → List Char → List Nat)
    (nowMs : Nat) (header : List Nat) (secret secret' : List Char)
    (p : ManagerTokenPayload) (hsecret : secret ≠ []) (hsecret' : secret' ≠ [])
    (hheader : ∀ x ∈ header, x < 256)
    (hhout : ∀ x ∈ hmac secret
      (b64Encode header ++ '.' :: b64Encode (stringifyPayload p)), x < 256)
    (hsafe : payloadSafe p)
    (hexp : ∀ e, p.exp = some e → nowMs < 1000 * e) :
    verifyManagerToken hmac nowMs (signManagerToken hmac header secret p) secret
      = Except.ok p ∧
    (hmac secret' (b64Encode header ++ '.' :: b64Encode (stringifyPayload p))
        ≠ hmac secret (b64Encode header ++ '.' :: b64Encode (stringifyPayload p)) →
      verifyManagerToken hmac nowMs (signManagerToken hmac header secret p) secret'
        = Except.error "Invalid token signature") := by
  constructor
  · rw [verify_sign_master hmac nowMs header secret p hsecret hheader hhout hsafe]
    cases hpe : p.exp with
    | none => rfl
    | some e =>
        have hfut := hexp e hpe
        have hcond : ¬(e ≠ 0 ∧ 1000 * e < nowMs) := by omega
        simp only [if_neg hcond]
  · intro hne
    exact verify_sign_wrong_secret hmac nowMs header secret secret' p hsecret'
      hheader hhout hsafe hne

theorem verifyManagerToken_roundtrip_witness :
    verifyManagerToken hmacDemo 0
      (signManagerToken hmacDemo (strBytes "hdr") ['s'] emptyPayload) ['s']
      = Except.ok emptyPayload ∧
    verifyManagerToken hmacDemo 0
      (signManagerToken hmacDemo (strBytes "hdr") ['s'] emptyPayload) ['a', 'b']
      = Except.error "Invalid token signature" := by
  have h := verifyManagerToken_roundtrip hmacDemo 0 (strBytes "hdr") ['s']
    ['a', 'b'] emptyPayload (by decide) (by decide) (by decide) (by decide)
    (by decide) (by intro e he; simp [emptyPayload] at he)
  exact ⟨h.1, h.2 (by decide)⟩

def c3Secret : List Char := ['s']

def c3Header : List Nat := strBytes "hdr"

def c3Token : List Char := signManagerToken hmacDemo c3Header c3Secret emptyPayload

/-- `c3Token` with its final character replaced: a tampered signature
segment that decodes to the same bytes. -/
def c3Tampered : List Char := c3Token.dropLast ++ ['l']

/-- C3 counterexample: a token differing from the signed one in its
signature segment still verifies, because the final base64url character's
two trailing bits are ignored by the decoder — refuting "for every …
tampering of one of the three segments, verifyManagerToken throws". -/
theorem verifyManagerToken_tamper_cex :
    c3Tampered ≠ c3Token ∧
    c3Tampered.length = c3Token.length ∧
    verifyManagerToken hmacDemo 0 c3Tampered c3Secret = Except.ok emptyPayload := by
  refine ⟨by decide, by decide, by decide⟩

/-! ## Claim C9 — expiry semantics of verifyManagerToken -/

/-- C9 (amended): for a well-signed token, verification fails with the
token-expired error exactly when `exp` is present, **nonzero**, and the
current time in seconds exceeds it; when `exp` is absent, zero (falsy in
JavaScript), or not in the past, verification succeeds. -/
theorem verifyManagerToken_exp_check (hmac : List Char → List Char → List Nat)
    (nowMs : Nat) (header : List Nat) (secret : List Char)
    (p : ManagerTokenPayload) (hsecret : secret ≠ [])
    (hheader : ∀ x ∈ header, x < 256)
    (hhout : ∀ x ∈ hmac secret
      (b64Encode header ++ '.' :: b64Encode (stringifyPayload p)), x < 256)
    (hsafe : payloadSafe p) :
    (∀ e, p.exp = some e → e ≠ 0 → 1000 * e < nowMs →
      verifyManagerToken hmac nowMs (signManagerToken hmac header secret p) secret
        = Except.error "Token expired") ∧
    ((p.exp = none ∨ ∃ e, p.exp = some e ∧ (e = 0 ∨ nowMs ≤ 1000 * e)) →
      verifyManagerToken hmac nowMs (signManagerToken hmac header secret p) secret
        = Except.ok p) := by
  have hmaster := verify_sign_master hmac nowMs header secret p hsecret hheader
    hhout hsafe
  constructor
  · intro e hpe hnz hpast
    rw [hmaster, hpe]
    dsimp only
    rw [if_pos (show e ≠ 0 ∧ 1000 * e < nowMs from ⟨hnz, hpast⟩)]
  · intro hok
    rw [hmaster]
    rcases hok with hnone | ⟨e, hpe, hcase⟩
    · rw [hnone]
    · rw [hpe]
      dsimp only
      have hcond : ¬(e ≠ 0 ∧ 1000 * e < nowMs) := by omega
      rw [if_neg hcond]

theorem verifyManagerToken_exp_check_witness :
    verifyManagerToken hmacDemo 2000000
      (signManagerToken hmacDemo (strBytes "hdr") ['s']
        { emptyPayload with exp := some 1 }) ['s']
      = Except.error "Token expired" ∧
    verifyManagerToken hmacDemo 2000000
      (signManagerToken hmacDemo (strBytes "hdr") ['s']
        { emptyPayload with exp := some 3000 }) ['s']
      = Except.ok { emptyPayload with exp := some 3000 } := by
  refine ⟨?_, ?_⟩
  · exact (verifyManagerToken_exp_check hmacDemo 2000000 (strBytes "hdr") ['s']
      { emptyPayload with exp := some 1 } (by decide) (by decide) (by decide)
      (by decide)).1 1 rfl (by decide) (by decide)
  · exact (verifyManagerToken_exp_check hmacDemo 2000000 (strBytes "hdr") ['s']
      { emptyPayload with exp := some 3000 } (by decide) (by decide) (by decide)
      (by decide)).2 (Or.inr ⟨3000, rfl, Or.inr (by decide)⟩)

def c9Payload : ManagerTokenPayload := { emptyPayload with exp := some 0 }

def c9Token : List Char := signManagerToken hmacDemo c3Header c3Secret c9Payload

/-- C9 counterexample: a validly signed token with `exp = 0` and a current
time well past it (1000 s) verifies successfully — `payload.exp &&` is
falsy for zero, so the expiry check is skipped, refuting the claim that
any present past `exp` fails with the token-expired error. -/
theorem verifyManagerToken_expZero_cex :
    c9Payload.exp = some 0 ∧ 1000 * 0 < 1000000 ∧
    verifyManagerToken hmacDemo 1000000 c9Token c3Secret = Except.ok c9Payload := by
  refine ⟨rfl, by decide, by decide⟩

/-! ## Presence-secret resolver (server/services/presenceSecret.ts)

The registry tenant-key fetch, the secret-store read and the per-agent
credential POST are external calls; their (already truthiness-filtered)
outcomes enter as parameters, and the returned trace records which tiers
were consulted. -/

inductive PresenceSecretSource where
  | static
  | tenantKeys
  | registry
  deriving DecidableEq, Repr

structure PresenceSecretCacheEntry where
  secret : String
  source : PresenceSecretSource
  timestamp : Nat
  deriving DecidableEq, Repr

inductive PresenceTier where
  | tenantKeys
  | registry
  deriving DecidableEq, Repr

structure PresenceEnv where
  skyofficePresenceSharedSecret : Option String
  skyofficePresenceSecret : Option String
  presenceSharedSecret : Option String
  sharedSecret : Option String
  registryOfficeId : Option String
  officeIdVar : Option String
  skyofficeOfficeId : Option String
  deriving DecidableEq, Repr

/-- `process.env.SKYOFFICE_PRESENCE_SHARED_SECRET || … || SHARED_SECRET`. -/
def staticSecretChain (env : PresenceEnv) : Option String :=
  truthyStr (jsOrStr env.skyofficePresenceSharedSecret
    (jsOrStr env.skyofficePresenceSecret
      (jsOrStr env.presenceSharedSecret env.sharedSecret)))

/-- `officeId || REGISTRY_OFFICE_ID || OFFICE_ID || SKYOFFICE_OFFICE_ID`. -/
def officeIdChain (env : PresenceEnv) (officeId : Option String) : Option String :=
  truthyStr (jsOrStr officeId (jsOrStr env.registryOfficeId
    (jsOrStr env.officeIdVar env.skyofficeOfficeId)))

/-- `resolvePresenceSecret`.  `cacheEntry` is what `secretCache` holds under
`officeId:lowercase(agentId)`; `tenantResult`/`registryResult` are the
outcomes the two external tiers would produce. -/
def resolvePresenceSecret (env : PresenceEnv)
    (cacheEntry : Option PresenceSecretCacheEntry) (cacheTtlMs : Nat)
    (tenantResult registryResult : Option String) (now : Nat)
    (officeId : Option String) :
    Option PresenceSecretCacheEntry × List PresenceTier :=
  match staticSecretChain env with
  | some s => (some { secret := s, source := PresenceSecretSource.static, timestamp := now }, [])
  | none =>
      match officeIdChain env officeId with
      | none => (none, [])
      | some _ =>
          let hitCache : Bool :=
            match cacheEntry with
            | some entry => now - entry.timestamp < cacheTtlMs
            | none => false
          if hitCache then (cacheEntry, [])
          else
            match truthyStr tenantResult with
            | some t =>
                (some { secret := t, source := PresenceSecretSource.tenantKeys,
                        timestamp := now }, [PresenceTier.tenantKeys])
            | none =>
                match truthyStr registryResult with
                | some r =>
                    (some { secret := r, source := PresenceSecretSource.registry,
                            timestamp := now },
                     [PresenceTier.tenantKeys, PresenceTier.registry])
                | none => (none, [PresenceTier.tenantKeys, PresenceTier.registry])

/-- C10: the static-environment tier wins without consulting any other tier
(the first set variable in the documented order supplying the value), and
only when no static variable is set — and the office id resolves with a
cold cache — are the tenant-keys tier and then the per-agent registry
credential tier consulted, first non-null winning. -/
theorem resolvePresenceSecret_tier_order (env : PresenceEnv)
    (cacheTtlMs : Nat) (tenantResult registryResult : Option String)
    (now : Nat) (officeId : Option String) :
    (∀ v, staticSecretChain env = some v →
      ∀ cacheEntry,
        resolvePresenceSecret env cacheEntry cacheTtlMs tenantResult
          registryResult now officeId
          = (some { secret := v, source := PresenceSecretSource.static,
                    timestamp := now }, [])) ∧
    (∀ v, truthyStr env.skyofficePresenceSharedSecret = some v →
      staticSecretChain env = some v) ∧
    (staticSecretChain env = none →
      (officeIdChain env officeId).isSome →
      (∀ t, truthyStr tenantResult = some t →
        resolvePresenceSecret env none cacheTtlMs tenantResult registryResult
          now officeId
          = (some { secret := t, source := PresenceSecretSource.tenantKeys,
                    timestamp := now }, [PresenceTier.tenantKeys])) ∧
      (truthyStr tenantResult = none →
        ∀ r, truthyStr registryResult = some r →
        resolvePresenceSecret env none cacheTtlMs tenantResult registryResult
          now officeId
          = (some { secret := r, source := PresenceSecretSource.registry,
                    timestamp := now },
             [PresenceTier.tenantKeys, PresenceTier.registry]))) := by
  refine ⟨?_, ?_, ?_⟩
  · intro v hv cacheEntry
    simp [resolvePresenceSecret, hv]
  · intro v hv
    simp only [staticSecretChain, jsOrStr]
    cases henv : env.skyofficePresenceSharedSecret with
    | none => simp [truthyStr, henv] at hv
    | some s =>
        rw [henv] at hv
        by_cases hs : s = ""
        · simp [truthyStr, hs] at hv
        · simp only [truthyStr, if_neg hs, Option.some_inj] at hv
          subst hv
          simp [truthyStr, if_neg hs]
  · intro hstatic hoid
    obtain ⟨oid, hoidv⟩ := Option.isSome_iff_exists.mp hoid
    constructor
    · intro t ht
      simp [resolvePresenceSecret, hstatic, hoidv, ht]
    · intro hnone r hr
      simp [resolvePresenceSecret, hstatic, hoidv, hnone, hr]

theorem resolvePresenceSecret_tier_order_witness :
    (staticSecretChain
      { skyofficePresenceSharedSecret := some "topsecret",
        skyofficePresenceSecret := none, presenceSharedSecret := none,
        sharedSecret := none, registryOfficeId := none, officeIdVar := none,
        skyofficeOfficeId := none } = some "topsecret") ∧
    resolvePresenceSecret
      { skyofficePresenceSharedSecret := some "topsecret",
        skyofficePresenceSecret := none, presenceSharedSecret := none,
        sharedSecret := none, registryOfficeId := none, officeIdVar := none,
        skyofficeOfficeId := none } none 300000 (some "tenant") (some "cred") 7
      (some "office-1")
      = (some { secret := "topsecret", source := PresenceSecretSource.static,
                timestamp := 7 }, []) := by
  refine ⟨by decide, ?_⟩
  exact (resolvePresenceSecret_tier_order _ 300000 (some "tenant") (some "cred")
    7 (some "office-1")).1 "topsecret" (by decide) none

/-! ## Handshake and join (server/rooms/SkyOffice.ts: onAuth,
validateNpcHandshake, onJoin, syncNpcsToClient, ensureNpcAssignmentsLoaded)

Join options with non-string fields behave as absent (`typeof x ===
'string'` guards); `ServerError` payloads are `(status, message)`, the 410
redirect's `JSON.stringify({roomId})` body modelled structurally.  The
room directory (`namespaceRooms`) enters as a map from lowercased slug to
the target room's `roomId`; persisted NPC rows and the awaited
`resolvePresenceSecret` outcome enter as parameters. -/

structure JoinOptions where
  agentId : Option String
  namespaceSlug : Option String
  name : Option String
  managerToken : Option String
  authManagerToken : Option String
  password : Option String
  deriving DecidableEq, Repr

structure NpcUserData where
  npcAgentId : String
  npcKey : String
  managerTokenPayload : ManagerTokenPayload
  presenceSecretSource : PresenceSecretSource
  deriving DecidableEq, Repr

inductive ServerErrorMsg where
  | text (msg : String)
  | roomIdJson (roomId : String)
  deriving DecidableEq, Repr

abbrev HandshakeErr := Nat × ServerErrorMsg

structure PersistedNpc where
  agentId : String
  name : String
  avatarId : String
  workstationId : String
  positionX : Int
  positionY : Int
  role : Option String
  computerId : Option String
  roomName : Option String
  voiceAgentId : Option String
  namespaceSlug : Option String
  deriving DecidableEq, Repr

def persistedToPayload (npc : PersistedNpc) : NpcDeploymentPayload :=
  { agentId := npc.agentId, name := npc.name, avatarId := npc.avatarId,
    workstationId := npc.workstationId,
    position := some (npc.positionX, npc.positionY),
    role := npc.role, officeId := none, computerId := npc.computerId,
    voiceAgentId := npc.voiceAgentId, namespaceSlug := npc.namespaceSlug }

/-- `ensureNpcAssignmentsLoaded`: rehydrate persisted rows whose `roomName`
(defaulting to `"Public Lobby"`) equals this room's name, unless assignments
already exist and no force flag is given. -/
def ensureNpcAssignmentsLoaded (ctx : RoomCtx) (s : RoomState)
    (persisted : List PersistedNpc) (force : Bool) (nowIso : String) : RoomState :=
  if ¬force ∧ s.npcAssignments ≠ [] then s
  else
    (persisted.filter (fun npc => (npc.roomName.getD "Public Lobby") = ctx.name)).foldl
      (fun acc npc => (upsertNpc ctx acc (persistedToPayload npc) nowIso).1) s

theorem ensureNpcAssignmentsLoaded_nil (ctx : RoomCtx) (s : RoomState)
    (force : Bool) (nowIso : String) :
    ensureNpcAssignmentsLoaded ctx s [] force nowIso = s := by
  unfold ensureNpcAssignmentsLoaded
  split <;> rfl

/-- ASCII view of decoded payload bytes. -/
def bytesToStr (b : List Nat) : String := String.mk (b.map Char.ofNat)

/-- JavaScript truthiness of an optional byte string. -/
def truthyBytes (o : Option (List Nat)) : Option (List Nat) :=
  match o with
  | none => none
  | some b => if b = [] then none else some b

def validateNpcHandshake (ctx : RoomCtx) (s : RoomState)
    (directory : SMap String String) (persisted : List PersistedNpc)
    (secretResult : Option PresenceSecretCacheEntry)
    (hmac : List Char → List Char → List Nat) (nowMs : Nat) (nowIso : String)
    (options : JoinOptions) :
    Except HandshakeErr (RoomState × Option NpcUserData) :=
  let agentRaw := match options.agentId with
    | some a => jsLower (jsTrim a)
    | none => ""
  if agentRaw = "" then Except.ok (s, none)
  else
    let token := (jsOrStr (options.authManagerToken.map jsTrim)
      (jsOrStr (options.managerToken.map jsTrim) (some ""))).getD ""
    if token = "" then
      Except.error (403, ServerErrorMsg.text "managerToken is required for NPC connections")
    else
      let expectedNamespace := (jsOrStr (options.namespaceSlug.map jsTrim)
        (jsOrStr ctx.namespaceSlug (some ctx.name))).getD ctx.name
      let expectedNamespaceLower :=
        if expectedNamespace = "" then none else some (jsLower expectedNamespace)
      let currentNamespaceLower := (truthyStr ctx.namespaceSlug).map jsLower
      let s1 := ensureNpcAssignmentsLoaded ctx s persisted false nowIso
      let afterLookup : Except HandshakeErr (RoomState × NpcAssignment) :=
        match SMap.get s1.npcAssignments agentRaw with
        | some assignment => Except.ok (s1, assignment)
        | none =>
            let s2 := ensureNpcAssignmentsLoaded ctx s1 persisted true nowIso
            match SMap.get s2.npcAssignments agentRaw with
            | some assignment => Except.ok (s2, assignment)
            | none =>
                match expectedNamespaceLower, currentNamespaceLower with
                | some el, some cl =>
                    if el ≠ cl then
                      match SMap.get directory el with
                      | some targetRoomId =>
                          Except.error (410, ServerErrorMsg.roomIdJson targetRoomId)
                      | none =>
                          Except.error (404, ServerErrorMsg.text
                            ("NPC assignment not found for agent '" ++ agentRaw ++ "'"))
                    else
                      Except.error (404, ServerErrorMsg.text
                        ("NPC assignment not found for agent '" ++ agentRaw ++ "'"))
                | _, _ =>
                    Except.error (404, ServerErrorMsg.text
                      ("NPC assignment not found for agent '" ++ agentRaw ++ "'"))
      match afterLookup with
      | Except.error e => Except.error e
      | Except.ok (s', assignment) =>
          let secretSource := match secretResult with
            | some e => e.source
            | none => PresenceSecretSource.registry
          match truthyStr (secretResult.map (fun e => e.secret)) with
          | none => Except.error (503, ServerErrorMsg.text "Presence credential unavailable")
          | some secretToUse =>
              match verifyManagerToken hmac nowMs token.data secretToUse.data with
              | Except.error msg =>
                  Except.error (403, ServerErrorMsg.text
                    ("Invalid managerToken (" ++ msg ++ ")"))
              | Except.ok payload =>
                  let agentMismatch : Bool :=
                    match truthyBytes payload.agentId with
                    | some aid => jsLower (jsTrim (bytesToStr aid)) ≠ agentRaw
                    | none => false
                  if agentMismatch then
                    Except.error (403, ServerErrorMsg.text "managerToken agent mismatch")
                  else
                    let payloadNamespace :=
                      (jsOrStr ((truthyBytes payload.«namespace»).map bytesToStr)
                        (jsOrStr ((truthyBytes payload.namespaceSlug).map bytesToStr)
                          (some ""))).getD ""
                    let nsMismatch : Bool :=
                      if payloadNamespace = "" then false
                      else
                        match expectedNamespaceLower with
                        | some el =>
                            jsLower (jsTrim payloadNamespace) ≠ "" ∧
                            jsLower (jsTrim payloadNamespace) ≠ el
                        | none => false
                    if nsMismatch then
                      Except.error (403, ServerErrorMsg.text "managerToken namespace mismatch")
                    else
                      let asgMismatch : Bool :=
                        match expectedNamespaceLower, truthyStr assignment.namespaceSlug with
                        | some el, some asg => jsLower asg ≠ el
                        | _, _ => false
                      if asgMismatch then
                        Except.error (403, ServerErrorMsg.text "NPC namespace mismatch")
                      else
                        Except.ok (s', some
                          { npcAgentId := agentRaw,
                            npcKey := getNpcKey agentRaw,
                            managerTokenPayload := payload,
                            presenceSecretSource := secretSource })

/-- `onAuth`: namespace gate, password gate (bcrypt compare as an oracle),
then the NPC handshake. -/
def onAuth (ctx : RoomCtx) (s : RoomState) (passwordHash : Option String)
    (bcryptCompare : String → String → Bool)
    (directory : SMap String String) (persisted : List PersistedNpc)
    (secretResult : Option PresenceSecretCacheEntry)
    (hmac : List Char → List Char → List Nat) (nowMs : Nat) (nowIso : String)
    (options : JoinOptions) :
    Except HandshakeErr (RoomState × Option NpcUserData) :=
  let requestedNamespace := jsOrStr (options.namespaceSlug.map (fun v => jsLower (jsTrim v)))
    (jsOrStr (options.name.map (fun v => jsLower (jsTrim v))) none)
  let currentNamespace := (truthyStr ctx.namespaceSlug).map (fun v => jsLower (jsTrim v))
  let namespaceGate : Bool :=
    match requestedNamespace, currentNamespace with
    | some r, some c => r ≠ c
    | _, _ => false
  if namespaceGate then Except.error (403, ServerErrorMsg.text "Namespace mismatch")
  else
    match truthyStr passwordHash with
    | some hash =>
        (match truthyStr options.password with
         | none => Except.error (403, ServerErrorMsg.text "Password is required!")
         | some pw =>
             if bcryptCompare pw hash then
               validateNpcHandshake ctx s directory persisted secretResult hmac
                 nowMs nowIso options
             else Except.error (403, ServerErrorMsg.text "Password is incorrect!"))
    | none =>
        validateNpcHandshake ctx s directory persisted secretResult hmac nowMs
          nowIso options

/-- One `syncNpcsToClient` iteration for an assignment entry. -/
def syncNpcStep (s : RoomState) (entry : String × NpcAssignment) : RoomState :=
  let assignment := entry.2
  let key := getNpcKey assignment.agentId
  let player0 := (SMap.get s.players key).getD newPlayer
  let player1 : Player :=
    { player0 with
      name := assignment.name
      x := (assignment.position.map Prod.fst).getD player0.x
      y := (assignment.position.map Prod.snd).getD player0.y
      readyToConnect := true
      videoConnected := false
      anim :=
        if (truthyStr assignment.computerId).isSome then
          getSittingAnim assignment.avatarId
        else getIdleAnim assignment.avatarId }
  let payloadOf : NpcDeploymentPayload :=
    { agentId := assignment.agentId, name := assignment.name,
      avatarId := assignment.avatarId, workstationId := assignment.workstationId,
      position := assignment.position, role := some assignment.role,
      officeId := assignment.officeId, computerId := assignment.computerId,
      voiceAgentId := assignment.voiceAgentId,
      namespaceSlug := assignment.namespaceSlug }
  let players1 := SMap.set s.players key player1
  let (computers1, assignedComputer) :=
    assignNpcToWorkstation s.computers key payloadOf
  let assignments1 :=
    match assignedComputer with
    | some c =>
        if assignment.computerId ≠ some c then
          SMap.set s.npcAssignments entry.1 { assignment with computerId := some c }
        else s.npcAssignments
    | none => s.npcAssignments
  { players := players1, computers := computers1, npcAssignments := assignments1 }

/-- `syncNpcsToClient` (per-client send omitted; state effects kept). -/
def syncNpcsToClient (ctx : RoomCtx) (s : RoomState)
    (persisted : List PersistedNpc) (nowIso : String) : RoomState :=
  let s1 := ensureNpcAssignmentsLoaded ctx s persisted false nowIso
  if s1.npcAssignments = [] then s1
  else s1.npcAssignments.foldl syncNpcStep s1

/-- `onJoin`: a fresh human `Player` is attached under the raw session id
exactly when the handshake left no NPC marker; the snapshot send is
external, the NPC re-sync mutates state. -/
def onJoin (ctx : RoomCtx) (s : RoomState) (persisted : List PersistedNpc)
    (nowIso : String) (sessionId : String) (userData : Option NpcUserData) :
    RoomState :=
  let npcKey := (userData.map (fun u => u.npcKey)).getD ""
  let s1 :=
    if npcKey = "" then { s with players := SMap.set s.players sessionId newPlayer }
    else s
  syncNpcsToClient ctx s1 persisted nowIso

instance exceptHandshakeDecEq {α : Type} [DecidableEq α] :
    DecidableEq (Except HandshakeErr α) := fun a b =>
  match a, b with
  | Except.ok x, Except.ok y =>
      match decEq x y with
      | isTrue h => isTrue (by rw [h])
      | isFalse h => isFalse (fun hc => h (by injection hc))
  | Except.error x, Except.error y =>
      match decEq x y with
      | isTrue h => isTrue (by rw [h])
      | isFalse h => isFalse (fun hc => h (by injection hc))
  | Except.ok _, Except.error _ => isFalse (fun hc => Except.noConfusion hc)
  | Except.error _, Except.ok _ => isFalse (fun hc => Except.noConfusion hc)

/-! ## C1: the 410 namespace redirect and the onAuth namespace gate -/

def c1Ctx : RoomCtx :=
  { roomId := "r-alpha", name := "alpha", namespaceSlug := some "alpha" }

def c1Options : JoinOptions :=
  { agentId := some "bot", namespaceSlug := some "beta", name := none,
    managerToken := some "sometoken", authManagerToken := none, password := none }

def c1Directory : SMap String String := [("beta", "r-beta")]

/-- Counterexample to C1: rooms `alpha` and `beta` exist, the NPC handshake
with `namespaceSlug := "beta"` (non-blank agentId, managerToken present, no
assignment for the agent) hits room `alpha` — `onAuth` answers 403
"Namespace mismatch", not the claimed 410 redirect, because its namespace
gate runs before `validateNpcHandshake`; the 410 would only be produced by
`validateNpcHandshake` on its own. -/
theorem onAuth_namespace_redirect_cex :
    onAuth c1Ctx freshRoomState none (fun _ _ => true) c1Directory []
        (some { secret := "sec", source := PresenceSecretSource.static,
                timestamp := 0 }) hmacDemo 0 "t" c1Options
      = Except.error (403, ServerErrorMsg.text "Namespace mismatch") ∧
    validateNpcHandshake c1Ctx freshRoomState c1Directory []
        (some { secret := "sec", source := PresenceSecretSource.static,
                timestamp := 0 }) hmacDemo 0 "t" c1Options
      = Except.error (410, ServerErrorMsg.roomIdJson "r-beta") := by
  exact ⟨by decide, by decide⟩

/-- C1 (amended): for a room with truthy namespace slug A (already trimmed
and lowercased) and join options carrying a non-blank agentId, a
managerToken, and a requested namespaceSlug B whose trimmed-lowered form is
non-blank and differs from A, when the room holds no assignment for the
agent, nothing is persisted for it, and the live-room directory maps B's
lowered form to another room's id: `onAuth` rejects the handshake with 403
"Namespace mismatch" at its namespace gate, before ever reaching
`validateNpcHandshake`; the claimed 410 `{roomId}` redirect is produced by
`validateNpcHandshake` alone, so it is unreachable through `onAuth` for
such requests. -/
theorem onAuth_namespace_gate_shadows_redirect
    (ctx : RoomCtx) (s : RoomState) (passwordHash : Option String)
    (bcryptCompare : String → String → Bool)
    (directory : SMap String String)
    (secretResult : Option PresenceSecretCacheEntry)
    (hmac : List Char → List Char → List Nat) (nowMs : Nat) (nowIso : String)
    (options : JoinOptions) (A B agentStr targetRoomId : String)
    (hA : ctx.namespaceSlug = some A) (hAne : A ≠ "")
    (hAtrim : jsTrim A = A) (hAlow : jsLower A = A)
    (hAg : options.agentId = some agentStr)
    (hAgNonBlank : jsLower (jsTrim agentStr) ≠ "")
    (hB : options.namespaceSlug = some B)
    (hBne : jsLower (jsTrim B) ≠ "")
    (hBA : jsLower (jsTrim B) ≠ A)
    (hTok : (jsOrStr (options.authManagerToken.map jsTrim)
      (jsOrStr (options.managerToken.map jsTrim) (some ""))).getD "" ≠ "")
    (hNoAsg : SMap.get s.npcAssignments (jsLower (jsTrim agentStr)) = none)
    (hDir : SMap.get directory (jsLower (jsTrim B)) = some targetRoomId) :
    onAuth ctx s passwordHash bcryptCompare directory [] secretResult hmac nowMs
        nowIso options
      = Except.error (403, ServerErrorMsg.text "Namespace mismatch") ∧
    validateNpcHandshake ctx s directory [] secretResult hmac nowMs nowIso
        options
      = Except.error (410, ServerErrorMsg.roomIdJson targetRoomId) := by
  have hBtrim : jsTrim B ≠ "" := by
    intro h
    exact hBne (by rw [h]; rfl)
  constructor
  · unfold onAuth
    simp only [hA, hB]
    have hreq : jsOrStr (Option.map (fun v => jsLower (jsTrim v)) (some B))
        (jsOrStr (options.name.map (fun v => jsLower (jsTrim v))) none)
        = some (jsLower (jsTrim B)) := by
      simp [jsOrStr, truthyStr, hBne]
    have hcur : (truthyStr (some A)).map (fun v => jsLower (jsTrim v))
        = some A := by
      simp [truthyStr, hAne, hAtrim, hAlow]
    rw [hreq, hcur]
    rw [if_pos (by simp [hBA])]
  · unfold validateNpcHandshake
    simp only [hAg]
    rw [if_neg hAgNonBlank, if_neg hTok]
    have hexp : (jsOrStr (options.namespaceSlug.map jsTrim)
        (jsOrStr ctx.namespaceSlug (some ctx.name))).getD ctx.name
        = jsTrim B := by
      simp [hB, jsOrStr, truthyStr, hBtrim]
    rw [hexp, if_neg hBtrim]
    rw [ensureNpcAssignmentsLoaded_nil, ensureNpcAssignmentsLoaded_nil, hNoAsg]
    simp only [hNoAsg, hA]
    have hcur : truthyStr (some A) = some A := by simp [truthyStr, hAne]
    rw [hcur]
    have hmap : Option.map jsLower (some A) = some A := by simp [hAlow]
    rw [hmap]
    dsimp only
    rw [if_pos hBA, hDir]

theorem onAuth_namespace_gate_shadows_redirect_witness :
    onAuth { roomId := "r-alpha", name := "alpha", namespaceSlug := some "alpha" }
        freshRoomState none (fun _ _ => true) [("beta", "r-beta")] []
        (some { secret := "sec", source := PresenceSecretSource.static,
                timestamp := 0 }) hmacDemo 0 "t"
        { agentId := some "Bot ", namespaceSlug := some " Beta", name := none,
          managerToken := some "tok", authManagerToken := none,
          password := some "pw" }
      = Except.error (403, ServerErrorMsg.text "Namespace mismatch") ∧
    validateNpcHandshake
        { roomId := "r-alpha", name := "alpha", namespaceSlug := some "alpha" }
        freshRoomState [("beta", "r-beta")] []
        (some { secret := "sec", source := PresenceSecretSource.static,
                timestamp := 0 }) hmacDemo 0 "t"
        { agentId := some "Bot ", namespaceSlug := some " Beta", name := none,
          managerToken := some "tok", authManagerToken := none,
          password := some "pw" }
      = Except.error (410, ServerErrorMsg.roomIdJson "r-beta") :=
  onAuth_namespace_gate_shadows_redirect
    { roomId := "r-alpha", name := "alpha", namespaceSlug := some "alpha" }
    freshRoomState none (fun _ _ => true) [("beta", "r-beta")]
    (some { secret := "sec", source := PresenceSecretSource.static,
            timestamp := 0 }) hmacDemo 0 "t"
    { agentId := some "Bot ", namespaceSlug := some " Beta", name := none,
      managerToken := some "tok", authManagerToken := none,
      password := some "pw" }
    "alpha" " Beta" "Bot " "r-beta"
    (by decide) (by decide) (by decide) (by decide) (by decide) (by decide)
    (by decide) (by decide) (by decide) (by decide) (by decide) (by decide)

/-! ## C2: blank agentId skips the NPC handshake entirely -/

theorem syncFold_get_players (l : List (String × NpcAssignment)) (s : RoomState)
    (sessionId : String)
    (h : ∀ e ∈ l, getNpcKey e.2.agentId ≠ sessionId) :
    SMap.get (l.foldl syncNpcStep s).players sessionId
      = SMap.get s.players sessionId := by
  induction l generalizing s with
  | nil => rfl
  | cons e tl ih =>
      rw [List.foldl_cons, ih _ (fun e' he' => h e' (List.mem_cons_of_mem _ he'))]
      exact SMap.get_set_ne _ _ _ _ (h e (List.mem_cons_self _ _))

/-- C2: when the join options' agentId is absent or blank after trimming,
`validateNpcHandshake` returns `(state, no NPC marker)` with no error — for
every hmac, clock and secret outcome, so no token verification can influence
the result even when a managerToken is present — `onAuth` (password unset,
no namespace override in the options) admits the client the same way, and
`onJoin` then attaches a fresh human `Player` under the raw session id,
provided no NPC session-key of the room collides with it. -/
theorem blank_agentId_admits_human_join
    (ctx : RoomCtx) (s : RoomState) (bcryptCompare : String → String → Bool)
    (directory : SMap String String) (persisted : List PersistedNpc)
    (secretResult : Option PresenceSecretCacheEntry)
    (hmac : List Char → List Char → List Nat) (nowMs : Nat) (nowIso : String)
    (options : JoinOptions) (sessionId : String)
    (hAg : (match options.agentId with
      | some a => jsLower (jsTrim a)
      | none => "") = "")
    (hNs : options.namespaceSlug = none) (hNm : options.name = none)
    (hPersist : persisted = [])
    (hKeys : ∀ e ∈ s.npcAssignments, getNpcKey e.2.agentId ≠ sessionId) :
    validateNpcHandshake ctx s directory persisted secretResult hmac nowMs
        nowIso options = Except.ok (s, none) ∧
    onAuth ctx s none bcryptCompare directory persisted secretResult hmac nowMs
        nowIso options = Except.ok (s, none) ∧
    SMap.get (onJoin ctx s persisted nowIso sessionId none).players sessionId
      = some newPlayer := by
  have hval : validateNpcHandshake ctx s directory persisted secretResult hmac
      nowMs nowIso options = Except.ok (s, none) := by
    unfold validateNpcHandshake
    simp only []
    rw [if_pos hAg]
  refine ⟨hval, ?_, ?_⟩
  · unfold onAuth
    simp only [hNs, hNm]
    have hreq : jsOrStr (Option.map (fun v => jsLower (jsTrim v))
          (none : Option String))
        (jsOrStr (Option.map (fun v => jsLower (jsTrim v))
          (none : Option String)) none) = (none : Option String) := by
      simp [jsOrStr, truthyStr]
    rw [hreq]
    have hgate : (match (none : Option String),
        (truthyStr ctx.namespaceSlug).map (fun v => jsLower (jsTrim v)) with
      | some r, some c => decide (r ≠ c)
      | _, _ => false) = false := by
      cases truthyStr ctx.namespaceSlug <;> rfl
    rw [hgate]
    simp only [Bool.false_eq_true, if_false]
    have hpw : truthyStr (none : Option String) = none := rfl
    rw [hpw]
    exact hval
  · unfold onJoin
    dsimp only
    have h0 : (Option.map (fun u : NpcUserData => u.npcKey) none).getD "" = "" :=
      rfl
    rw [if_pos h0]
    unfold syncNpcsToClient
    rw [hPersist, ensureNpcAssignmentsLoaded_nil]
    dsimp only
    by_cases hnil : s.npcAssignments = ([] : SMap String NpcAssignment)
    · rw [if_pos hnil]
      exact SMap.get_set_eq _ _ _
    · rw [if_neg hnil]
      rw [syncFold_get_players _ _ _ hKeys]
      exact SMap.get_set_eq _ _ _

theorem blank_agentId_admits_human_join_witness :
    validateNpcHandshake { roomId := "r1", name := "lobby", namespaceSlug := none }
        freshRoomState [] [] none hmacDemo 0 "t"
        { agentId := some "   ", namespaceSlug := none, name := none,
          managerToken := some "tok", authManagerToken := none, password := none }
      = Except.ok (freshRoomState, none) ∧
    onAuth { roomId := "r1", name := "lobby", namespaceSlug := none }
        freshRoomState none (fun _ _ => true) [] [] none hmacDemo 0 "t"
        { agentId := some "   ", namespaceSlug := none, name := none,
          managerToken := some "tok", authManagerToken := none, password := none }
      = Except.ok (freshRoomState, none) ∧
    SMap.get (onJoin { roomId := "r1", name := "lobby", namespaceSlug := none }
        freshRoomState [] "t" "sess" none).players "sess" = some newPlayer :=
  blank_agentId_admits_human_join
    { roomId := "r1", name := "lobby", namespaceSlug := none }
    freshRoomState (fun _ _ => true) [] [] none hmacDemo 0 "t"
    { agentId := some "   ", namespaceSlug := none, name := none,
      managerToken := some "tok", authManagerToken := none, password := none }
    "sess" (by decide) (by decide) (by decide) (by decide) (by decide)

/-! ## C8: precomputed-grid sidecar validation (SkyOffice.ts:
computeGridHash 1473-1475, loadPrecomputedGrid 1476-1517)

The sidecar enters already JSON-parsed and well-typed (grid a rectangular
candidate `List (List Nat)`, numeric tile sizes as `Option Nat`, hashes as
`Option String` with JS falsiness of the empty string via `truthyStr`);
SHA-256 over the stringified grid enters as an explicit `hash` parameter
applied to the 0/1-normalised grid, exactly as `computeGridHash` is applied
in the source. -/

structure GridExpected where
  width : Nat
  height : Nat
  tileWidth : Nat
  tileHeight : Nat
  mapHash : Option String
  deriving DecidableEq, Repr

structure GridSidecar where
  grid : List (List Nat)
  mapTileWidth : Option Nat
  mapTileHeight : Option Nat
  mapHash : Option String
  gridHash : Option String
  deriving DecidableEq, Repr

structure LoadedGrid where
  grid : List (List Nat)
  width : Nat
  height : Nat
  tileWidth : Nat
  tileHeight : Nat
  deriving DecidableEq, Repr

/-- JavaScript `a || b` on an optional number (`0` and `NaN` are falsy). -/
def jsOrNat (a : Option Nat) (b : Nat) : Nat :=
  match a with
  | some n => if n = 0 then b else n
  | none => b

/-- `grid.map(row => row.map(value => (value ? 1 : 0)))`. -/
def normalizeGrid (g : List (List Nat)) : List (List Nat) :=
  g.map (fun row => row.map (fun v => if v = 0 then 0 else 1))

/-- The tail of `loadPrecomputedGrid` after the expected-metadata checks:
tile-size fallbacks, grid normalisation, and the guarded gridHash check
(`if (data.gridHash && data.gridHash !== computedGridHash) throw`). -/
def finishLoad (hash : List (List Nat) → String) (data : GridSidecar)
    (expected : Option GridExpected) (width height : Nat) :
    Except String LoadedGrid :=
  let tileWidth := jsOrNat data.mapTileWidth
    (jsOrNat (expected.map (fun e => e.tileWidth)) 32)
  let tileHeight := jsOrNat data.mapTileHeight
    (jsOrNat (expected.map (fun e => e.tileHeight)) 32)
  let grid := normalizeGrid data.grid
  match truthyStr data.gridHash with
  | some gh =>
      if gh ≠ hash grid then
        Except.error
          "precomputed grid hash mismatch; please re-run npm run export:walkable-grid"
      else Except.ok { grid := grid, width := width, height := height,
                       tileWidth := tileWidth, tileHeight := tileHeight }
  | none => Except.ok { grid := grid, width := width, height := height,
                        tileWidth := tileWidth, tileHeight := tileHeight }

def loadPrecomputedGrid (hash : List (List Nat) → String)
    (data : GridSidecar) (expected : Option GridExpected) :
    Except String LoadedGrid :=
  if data.grid = [] then
    Except.error "precomputed grid invalid: missing grid array"
  else
    let height := data.grid.length
    let width := (data.grid.headD []).length
    if width = 0 ∨ data.grid.any (fun row => row.length ≠ width) then
      Except.error "precomputed grid invalid: inconsistent row width"
    else
      match expected with
      | none => finishLoad hash data none width height
      | some exp =>
          if width ≠ exp.width ∨ height ≠ exp.height then
            Except.error "precomputed grid size mismatch"
          else
            if data.mapTileWidth.getD exp.tileWidth ≠ exp.tileWidth ∨
               data.mapTileHeight.getD exp.tileHeight ≠ exp.tileHeight then
              Except.error "precomputed tile size mismatch"
            else
              match truthyStr exp.mapHash with
              | none => finishLoad hash data (some exp) width height
              | some em =>
                  match truthyStr data.mapHash with
                  | none =>
                      Except.error
                        "precomputed grid missing mapHash; please re-run npm run export:walkable-grid"
                  | some dm =>
                      if dm ≠ em then
                        Except.error "precomputed grid mapHash mismatch"
                      else finishLoad hash data (some exp) width height

theorem finishLoad_ok_facts (hash : List (List Nat) → String)
    (data : GridSidecar) (expected : Option GridExpected)
    (width height : Nat) (r : LoadedGrid)
    (hok : finishLoad hash data expected width height = Except.ok r) :
    (∀ gh, truthyStr data.gridHash = some gh →
      gh = hash (normalizeGrid data.grid)) ∧
    r.grid = normalizeGrid data.grid := by
  unfold finishLoad at hok
  cases hg : truthyStr data.gridHash with
  | none =>
      rw [hg] at hok
      dsimp only at hok
      refine ⟨fun gh hgh => ?_, ?_⟩
      · exact Option.noConfusion hgh
      · injection hok with h
        rw [← h]
  | some gh0 =>
      rw [hg] at hok
      dsimp only at hok
      by_cases hne : gh0 ≠ hash (normalizeGrid data.grid)
      · rw [if_pos hne] at hok
        exact Except.noConfusion hok
      · rw [if_neg hne] at hok
        push_neg at hne
        injection hok with h
        refine ⟨fun gh hgh => ?_, by rw [← h]⟩
        injection hgh with h2
        rw [← h2]
        exact hne

theorem loadPrecomputedGrid_ok_facts (hash : List (List Nat) → String)
    (data : GridSidecar) (exp : GridExpected) (r : LoadedGrid)
    (hok : loadPrecomputedGrid hash data (some exp) = Except.ok r) :
    data.grid.length = exp.height ∧
    (data.grid.headD []).length = exp.width ∧
    data.mapTileWidth.getD exp.tileWidth = exp.tileWidth ∧
    data.mapTileHeight.getD exp.tileHeight = exp.tileHeight ∧
    (∀ em, truthyStr exp.mapHash = some em → truthyStr data.mapHash = some em) ∧
    (∀ gh, truthyStr data.gridHash = some gh →
      gh = hash (normalizeGrid data.grid)) ∧
    r.grid = normalizeGrid data.grid := by
  unfold loadPrecomputedGrid at hok
  by_cases h1 : data.grid = []
  · rw [if_pos h1] at hok
    exact Except.noConfusion hok
  rw [if_neg h1] at hok
  dsimp only at hok
  by_cases h2 : (data.grid.headD []).length = 0 ∨
      data.grid.any (fun row => row.length ≠ (data.grid.headD []).length)
  · rw [if_pos h2] at hok
    exact Except.noConfusion hok
  rw [if_neg h2] at hok
  by_cases h3 : (data.grid.headD []).length ≠ exp.width ∨
      data.grid.length ≠ exp.height
  · rw [if_pos h3] at hok
    exact Except.noConfusion hok
  rw [if_neg h3] at hok
  push_neg at h3
  by_cases h4 : data.mapTileWidth.getD exp.tileWidth ≠ exp.tileWidth ∨
      data.mapTileHeight.getD exp.tileHeight ≠ exp.tileHeight
  · rw [if_pos h4] at hok
    exact Except.noConfusion hok
  rw [if_neg h4] at hok
  push_neg at h4
  cases hm : truthyStr exp.mapHash with
  | none =>
      rw [hm] at hok
      dsimp only at hok
      obtain ⟨hgh, hr⟩ := finishLoad_ok_facts hash data (some exp) _ _ r hok
      exact ⟨h3.2, h3.1, h4.1, h4.2,
        fun em hem => Option.noConfusion hem, hgh, hr⟩
  | some em0 =>
      rw [hm] at hok
      dsimp only at hok
      cases hd : truthyStr data.mapHash with
      | none =>
          rw [hd] at hok
          exact Except.noConfusion hok
      | some dm0 =>
          rw [hd] at hok
          dsimp only at hok
          by_cases h5 : dm0 ≠ em0
          · rw [if_pos h5] at hok
            exact Except.noConfusion hok
          rw [if_neg h5] at hok
          push_neg at h5
          obtain ⟨hgh, hr⟩ := finishLoad_ok_facts hash data (some exp) _ _ r hok
          refine ⟨h3.2, h3.1, h4.1, h4.2, fun em hem => ?_, hgh, hr⟩
          injection hem with h6
          exact congrArg some (h5.trans h6)

instance exceptGenDecEq {ε α : Type} [DecidableEq ε] [DecidableEq α] :
    DecidableEq (Except ε α) := fun a b =>
  match a, b with
  | Except.ok x, Except.ok y =>
      match decEq x y with
      | isTrue h => isTrue (by rw [h])
      | isFalse h => isFalse (fun hc => h (by injection hc))
  | Except.error x, Except.error y =>
      match decEq x y with
      | isTrue h => isTrue (by rw [h])
      | isFalse h => isFalse (fun hc => h (by injection hc))
  | Except.ok _, Except.error _ => isFalse (fun hc => Except.noConfusion hc)
  | Except.error _, Except.ok _ => isFalse (fun hc => Except.noConfusion hc)

def c8Hash : List (List Nat) → String :=
  fun g => String.mk ((g.flatten).map (fun v => Char.ofNat (48 + v % 10)))

def c8Expected : GridExpected :=
  { width := 2, height := 1, tileWidth := 32, tileHeight := 32, mapHash := none }

def c8Sidecar : GridSidecar :=
  { grid := [[1, 0]], mapTileWidth := none, mapTileHeight := none,
    mapHash := none, gridHash := none }

/-- Counterexample to C8: a sidecar that simply omits `gridHash` (and whose
expected metadata carries no `mapHash`) is accepted, and remains accepted
after mutating a grid entry — the hash comparisons are guarded by
`if (expected.mapHash)` and `if (data.gridHash && ...)`, so nothing forces
the hashes to be present, and an absent hash disables mutation detection. -/
theorem loadPrecomputedGrid_missing_gridHash_cex :
    c8Sidecar.gridHash = none ∧
    loadPrecomputedGrid c8Hash c8Sidecar (some c8Expected)
      = Except.ok { grid := [[1, 0]], width := 2, height := 1,
                    tileWidth := 32, tileHeight := 32 } ∧
    loadPrecomputedGrid c8Hash { c8Sidecar with grid := [[1, 1]] }
        (some c8Expected)
      = Except.ok { grid := [[1, 1]], width := 2, height := 1,
                    tileWidth := 32, tileHeight := 32 } :=
  ⟨rfl, by decide, by decide⟩

/-- C8 (amended): an accepted sidecar has matching dimensions and tile
sizes, its `mapHash` equals the expected one only WHEN the expected map
hash is available (non-empty), and its `gridHash` equals the hash of the
0/1-normalised grid only WHEN the sidecar carries one; consequently
mutation of the grid is detected only for sidecars that carry a `gridHash`
(two accepted sidecars with the same present `gridHash` have grids with the
same hash), and a sidecar without `gridHash` — or a mutation when the
expected `mapHash` is unavailable — loads without any verification error. -/
theorem loadPrecomputedGrid_conditional_validation
    (hash : List (List Nat) → String) (data : GridSidecar)
    (exp : GridExpected) (r : LoadedGrid)
    (hok : loadPrecomputedGrid hash data (some exp) = Except.ok r) :
    data.grid.length = exp.height ∧
    (data.grid.headD []).length = exp.width ∧
    data.mapTileWidth.getD exp.tileWidth = exp.tileWidth ∧
    data.mapTileHeight.getD exp.tileHeight = exp.tileHeight ∧
    (∀ em, truthyStr exp.mapHash = some em → truthyStr data.mapHash = some em) ∧
    (∀ gh, truthyStr data.gridHash = some gh →
      gh = hash (normalizeGrid data.grid)) ∧
    r.grid = normalizeGrid data.grid ∧
    (∀ data2 r2, loadPrecomputedGrid hash data2 (some exp) = Except.ok r2 →
      data2.gridHash = data.gridHash → truthyStr data.gridHash ≠ none →
      hash (normalizeGrid data2.grid) = hash (normalizeGrid data.grid)) := by
  obtain ⟨f1, f2, f3, f4, f5, f6, f7⟩ :=
    loadPrecomputedGrid_ok_facts hash data exp r hok
  refine ⟨f1, f2, f3, f4, f5, f6, f7, fun data2 r2 hok2 hsame hpresent => ?_⟩
  obtain ⟨_, _, _, _, _, g6, _⟩ :=
    loadPrecomputedGrid_ok_facts hash data2 exp r2 hok2
  cases hg : truthyStr data.gridHash with
  | none => exact absurd hg hpresent
  | some gh =>
      have h2 : truthyStr data2.gridHash = some gh := by rw [hsame, hg]
      rw [← g6 gh h2, f6 gh hg]

def c8HashedSidecar : GridSidecar :=
  { grid := [[1, 0]], mapTileWidth := none, mapTileHeight := none,
    mapHash := none, gridHash := some "10" }

def c8Loaded : LoadedGrid :=
  { grid := [[1, 0]], width := 2, height := 1, tileWidth := 32, tileHeight := 32 }

theorem loadPrecomputedGrid_conditional_validation_witness :
    loadPrecomputedGrid c8Hash c8HashedSidecar (some c8Expected)
      = Except.ok c8Loaded ∧
    (c8HashedSidecar.grid.length = c8Expected.height ∧
     (c8HashedSidecar.grid.headD []).length = c8Expected.width ∧
     c8HashedSidecar.mapTileWidth.getD c8Expected.tileWidth
       = c8Expected.tileWidth ∧
     c8HashedSidecar.mapTileHeight.getD c8Expected.tileHeight
       = c8Expected.tileHeight ∧
     (∀ em, truthyStr c8Expected.mapHash = some em →
       truthyStr c8HashedSidecar.mapHash = some em) ∧
     (∀ gh, truthyStr c8HashedSidecar.gridHash = some gh →
       gh = c8Hash (normalizeGrid c8HashedSidecar.grid)) ∧
     c8Loaded.grid = normalizeGrid c8HashedSidecar.grid ∧
     (∀ data2 r2,
       loadPrecomputedGrid c8Hash data2 (some c8Expected) = Except.ok r2 →
       data2.gridHash = c8HashedSidecar.gridHash →
       truthyStr c8HashedSidecar.gridHash ≠ none →
       c8Hash (normalizeGrid data2.grid)
         = c8Hash (normalizeGrid c8HashedSidecar.grid))) :=
  ⟨by decide,
   loadPrecomputedGrid_conditional_validation c8Hash c8HashedSidecar
     c8Expected c8Loaded (by decide)⟩

/-! ## C7: the A* pathfinder (SkyOffice.ts: WalkableMap.findPath 1394-1469,
isWalkable 1389-1393, toTile/toPixel/tileKey 1374-1388)

Tiles are integer pairs; the source's `tileKey` string `"x,y"` is injective
on integer pairs, so the key is modelled by the tile itself.  JS numbers
for `g`/`f` scores are modelled by `GCost` (`fin n` or `inf`, matching the
`?? Infinity` fallbacks).  Pixel points are rationals (`tileWidth / 2` is
exact float arithmetic at map scale).  The unbounded `while` loop takes
explicit fuel and answers `none` when it runs out — the source loop runs
until `openSet` drains, so every terminating source run is a run of the
model at sufficiently large fuel; the path-reconstruction `while` is fueled
by `cameFrom.size + 1`, which the proved invariant shows is never reached
because parent links strictly decrease the g-score. -/

theorem SMap.mem_set {α β : Type} [DecidableEq α] (m : SMap α β) (k : α)
    (v : β) (e : α × β) (he : e ∈ SMap.set m k v) : e ∈ m ∨ e = (k, v) := by
  induction m with
  | nil => simp [SMap.set] at he; simp [he]
  | cons hd tl ih =>
      obtain ⟨ka, va⟩ := hd
      by_cases hk : ka = k
      · rw [SMap.set, if_pos hk] at he
        rcases List.mem_cons.mp he with h | h
        · right; rw [h, hk]
        · left; exact List.mem_cons_of_mem _ h
      · rw [SMap.set, if_neg hk] at he
        rcases List.mem_cons.mp he with h | h
        · left; rw [h]; exact List.mem_cons_self _ _
        · rcases ih h with h' | h'
          · left; exact List.mem_cons_of_mem _ h'
          · right; exact h'

theorem SMap.mem_del {α β : Type} [DecidableEq α] (m : SMap α β) (k : α)
    (e : α × β) (he : e ∈ SMap.del m k) : e ∈ m := by
  induction m with
  | nil => simp [SMap.del] at he
  | cons hd tl ih =>
      obtain ⟨ka, va⟩ := hd
      by_cases hk : ka = k
      · rw [SMap.del, if_pos hk] at he
        exact List.mem_cons_of_mem _ (ih he)
      · rw [SMap.del, if_neg hk] at he
        rcases List.mem_cons.mp he with h | h
        · rw [h]; exact List.mem_cons_self _ _
        · exact List.mem_cons_of_mem _ (ih h)

theorem SMap.length_set {α β : Type} [DecidableEq α] (m : SMap α β) (k : α)
    (v : β) :
    (SMap.set m k v).length
      = if (SMap.get m k).isSome then m.length else m.length + 1 := by
  induction m with
  | nil => simp [SMap.set, SMap.get]
  | cons hd tl ih =>
      obtain ⟨ka, va⟩ := hd
      by_cases hk : ka = k
      · simp [SMap.set, SMap.get, hk]
      · simp only [SMap.set, if_neg hk, List.length_cons, SMap.get, ih]
        split <;> rfl

inductive GCost where
  | fin (n : Nat)
  | inf
  deriving DecidableEq, Repr

/-- `g + 1` (with `Infinity + 1 = Infinity`). -/
def GCost.addOne : GCost → GCost
  | GCost.fin n => GCost.fin (n + 1)
  | GCost.inf => GCost.inf

/-- `a + n` for a natural heuristic value. -/
def GCost.addNat : GCost → Nat → GCost
  | GCost.fin m, n => GCost.fin (m + n)
  | GCost.inf, _ => GCost.inf

/-- Strict `<` on JS numbers restricted to naturals and `Infinity`. -/
def GCost.blt : GCost → GCost → Bool
  | GCost.fin a, GCost.fin b => a < b
  | GCost.fin _, GCost.inf => true
  | GCost.inf, _ => false

abbrev Tile := Int × Int

structure WalkableMap where
  grid : List (List Nat)
  width : Nat
  height : Nat
  tileWidth : Nat
  tileHeight : Nat
  deriving DecidableEq, Repr

def toTile (m : WalkableMap) (p : ℚ × ℚ) : Tile :=
  (max 0 (min ((m.width : Int) - 1) ⌊p.1 / (m.tileWidth : ℚ)⌋),
   max 0 (min ((m.height : Int) - 1) ⌊p.2 / (m.tileHeight : ℚ)⌋))

def toPixel (m : WalkableMap) (t : Tile) : ℚ × ℚ :=
  ((t.1 : ℚ) * (m.tileWidth : ℚ) + (m.tileWidth : ℚ) / 2,
   (t.2 : ℚ) * (m.tileHeight : ℚ) + (m.tileHeight : ℚ) / 2)

def isWalkable (m : WalkableMap) (t : Tile) : Bool :=
  if t.1 < 0 ∨ t.2 < 0 ∨ (m.width : Int) ≤ t.1 ∨ (m.height : Int) ≤ t.2 then
    false
  else
    match m.grid.get? t.2.toNat with
    | some row =>
        match row.get? t.1.toNat with
        | some v => v = 0
        | none => false
    | none => false

/-- 4-neighbour adjacency of tiles (Manhattan distance one). -/
def tileAdjB (a b : Tile) : Bool :=
  (a.1 - b.1).natAbs + (a.2 - b.2).natAbs = 1

def heuristic (targetTile t : Tile) : Nat :=
  (t.1 - targetTile.1).natAbs + (t.2 - targetTile.2).natAbs

structure AStarState where
  openSet : SMap Tile (Tile × GCost)
  gScore : SMap Tile GCost
  cameFrom : SMap Tile (Option Tile)
  tileByKey : SMap Tile Tile
  closedSet : List Tile
  deriving DecidableEq, Repr

/-- The `openSet.forEach` minimum scan: first node (in insertion order)
whose `f` is strictly below every earlier one wins. -/
def selectCurrent (l : List (Tile × (Tile × GCost))) :
    Option (Tile × (Tile × GCost)) :=
  l.foldl (fun acc e =>
    match acc with
    | none => some e
    | some cur => if GCost.blt e.2.2 cur.2.2 then some e else acc) none

def dirs : List Tile := [(1, 0), (-1, 0), (0, 1), (0, -1)]

def processNeighbor (m : WalkableMap) (targetTile currentKey currentTile : Tile)
    (st : AStarState) (dir : Tile) : AStarState :=
  let neighbor : Tile := (currentTile.1 + dir.1, currentTile.2 + dir.2)
  if st.closedSet.contains neighbor then st
  else if ¬ isWalkable m neighbor then st
  else
    let tentativeG := GCost.addOne ((SMap.get st.gScore currentKey).getD GCost.inf)
    let proceed : Bool :=
      match SMap.get st.gScore neighbor with
      | some existingG => GCost.blt tentativeG existingG
      | none => true
    if ¬ proceed then st
    else
      { st with
        cameFrom := SMap.set st.cameFrom neighbor (some currentKey),
        gScore := SMap.set st.gScore neighbor tentativeG,
        tileByKey := SMap.set st.tileByKey neighbor neighbor,
        openSet := SMap.set st.openSet neighbor
          (neighbor, GCost.addNat tentativeG (heuristic targetTile neighbor)) }

/-- The reconstruction `while (key)` walk along `cameFrom`. -/
def reconstructPath (fuel : Nat) (tileByKey : SMap Tile Tile)
    (cameFrom : SMap Tile (Option Tile)) (key : Tile) : List Tile :=
  match fuel with
  | 0 => []
  | Nat.succ fuel =>
      let tl := match SMap.get tileByKey key with
        | some t => [t]
        | none => []
      match SMap.get cameFrom key with
      | some (some k) => tl ++ reconstructPath fuel tileByKey cameFrom k
      | _ => tl

def aStarLoop (m : WalkableMap) (targetTile : Tile) (fuel : Nat)
    (st : AStarState) : Option (List Tile) :=
  match fuel with
  | 0 => none
  | Nat.succ fuel =>
      if st.openSet.isEmpty then none
      else
        match selectCurrent st.openSet with
        | none => none
        | some (currentKey, currentNode) =>
            if currentNode.1 = targetTile then
              some ((reconstructPath (st.cameFrom.length + 1) st.tileByKey
                st.cameFrom currentKey).reverse)
            else
              let st1 : AStarState :=
                { st with openSet := SMap.del st.openSet currentKey,
                          closedSet := st.closedSet ++ [currentKey] }
              aStarLoop m targetTile fuel
                (dirs.foldl (processNeighbor m targetTile currentKey
                  currentNode.1) st1)

def findPath (m : WalkableMap) (fuel : Nat) (start target : ℚ × ℚ) :
    Option (List (ℚ × ℚ)) :=
  let startTile := toTile m start
  let targetTile := toTile m target
  if startTile = targetTile then some [toPixel m targetTile]
  else
    let st : AStarState :=
      { openSet := [(startTile,
          (startTile, GCost.fin (heuristic targetTile startTile)))],
        gScore := [(startTile, GCost.fin 0)],
        cameFrom := [(startTile, none)],
        tileByKey := [(startTile, startTile)],
        closedSet := [] }
    (aStarLoop m targetTile fuel st).map (fun tiles => tiles.map (toPixel m))

theorem tileAdjB_symm (a b : Tile) : tileAdjB a b = tileAdjB b a := by
  simp only [tileAdjB, decide_eq_decide]
  omega

/-- Loop invariant of the A* state: open nodes carry their own key as tile,
`tileByKey` is the identity on its domain, every scored key has finite
g-score, tile and came-from entries, parent links strictly decrease the
g-score, join adjacent tiles and point at walkable children, a `none`
came-from value marks the start key, g-scores are bounded by the table
size, and `gScore` and `cameFrom` always have equal size. -/
structure AInv (m : WalkableMap) (startKey : Tile) (st : AStarState) : Prop where
  openTile : ∀ e ∈ st.openSet, e.2.1 = e.1
  openG : ∀ e ∈ st.openSet, ∃ g, SMap.get st.gScore e.1 = some (GCost.fin g)
  tb : ∀ k t, SMap.get st.tileByKey k = some t → t = k
  gFin : ∀ k g, SMap.get st.gScore k = some g → ∃ n, g = GCost.fin n
  gTB : ∀ k g, SMap.get st.gScore k = some g → SMap.get st.tileByKey k = some k
  gCF : ∀ k g, SMap.get st.gScore k = some g → ∃ c, SMap.get st.cameFrom k = some c
  cfG : ∀ k c, SMap.get st.cameFrom k = some c → ∃ g, SMap.get st.gScore k = some g
  startG : SMap.get st.gScore startKey = some (GCost.fin 0)
  cfNone : ∀ k, SMap.get st.cameFrom k = some none → k = startKey
  cfSome : ∀ k p, SMap.get st.cameFrom k = some (some p) →
    ∃ gk gp, SMap.get st.gScore k = some (GCost.fin gk) ∧
      SMap.get st.gScore p = some (GCost.fin gp) ∧ gp < gk ∧
      tileAdjB p k = true ∧ isWalkable m k = true
  gBound : ∀ k gk, SMap.get st.gScore k = some (GCost.fin gk) →
    gk < st.gScore.length
  lenEq : st.gScore.length = st.cameFrom.length

theorem processNeighbor_inv (m : WalkableMap)
    (targetTile startKey currentKey : Tile) (st : AStarState) (dir : Tile)
    (gcur : Nat) (hinv : AInv m startKey st)
    (hcur : SMap.get st.gScore currentKey = some (GCost.fin gcur))
    (hdir : dir.1.natAbs + dir.2.natAbs = 1) :
    AInv m startKey (processNeighbor m targetTile currentKey currentKey st dir) ∧
    SMap.get (processNeighbor m targetTile currentKey currentKey st dir).gScore
      currentKey = some (GCost.fin gcur) := by
  unfold processNeighbor
  dsimp only
  set nb : Tile := (currentKey.1 + dir.1, currentKey.2 + dir.2) with hnb
  by_cases hc : st.closedSet.contains nb = true
  · rw [if_pos hc]
    exact ⟨hinv, hcur⟩
  rw [if_neg hc]
  by_cases hw : isWalkable m nb = true
  · rw [if_neg (by simp [hw])]
    rw [hcur]
    dsimp only [Option.getD, GCost.addOne]
    have hne : nb ≠ currentKey := by
      intro h
      rw [hnb] at h
      have h1 : currentKey.1 + dir.1 = currentKey.1 := congrArg Prod.fst h
      have h2 : currentKey.2 + dir.2 = currentKey.2 := congrArg Prod.snd h
      omega
    have hadj : tileAdjB currentKey nb = true := by
      rw [hnb]
      simp only [tileAdjB, decide_eq_true_eq]
      omega
    by_cases hp : (match SMap.get st.gScore nb with
      | some existingG => GCost.blt (GCost.fin (gcur + 1)) existingG
      | none => true) = true
    · rw [if_neg (by simp [hp])]
      dsimp only
      have hupd : ∀ gp, SMap.get st.gScore nb = some (GCost.fin gp) →
          gcur + 1 < gp := by
        intro gp hgp
        rw [hgp] at hp
        simpa [GCost.blt] using hp
      have hnbstart : nb ≠ startKey := by
        intro h
        rw [h, hinv.startG] at hp
        simp [GCost.blt] at hp
      have hgete : ∀ k, k ≠ nb →
          SMap.get (SMap.set st.gScore nb (GCost.fin (gcur + 1))) k
            = SMap.get st.gScore k :=
        fun k hk => SMap.get_set_ne _ _ _ _ (fun h => hk h.symm)
      have hgeteq : SMap.get (SMap.set st.gScore nb (GCost.fin (gcur + 1))) nb
          = some (GCost.fin (gcur + 1)) := SMap.get_set_eq _ _ _
      have hcfe : ∀ k, k ≠ nb →
          SMap.get (SMap.set st.cameFrom nb (some currentKey)) k
            = SMap.get st.cameFrom k :=
        fun k hk => SMap.get_set_ne _ _ _ _ (fun h => hk h.symm)
      have hcfeq : SMap.get (SMap.set st.cameFrom nb (some currentKey)) nb
          = some (some currentKey) := SMap.get_set_eq _ _ _
      have htbe : ∀ k, k ≠ nb →
          SMap.get (SMap.set st.tileByKey nb nb) k
            = SMap.get st.tileByKey k :=
        fun k hk => SMap.get_set_ne _ _ _ _ (fun h => hk h.symm)
      have htbeq : SMap.get (SMap.set st.tileByKey nb nb) nb = some nb :=
        SMap.get_set_eq _ _ _
      refine ⟨⟨?_, ?_, ?_, ?_, ?_, ?_, ?_, ?_, ?_, ?_, ?_, ?_⟩, ?_⟩
      · intro e he
        rcases SMap.mem_set _ _ _ _ he with h | h
        · exact hinv.openTile e h
        · rw [h]
      · intro e he
        by_cases hk : e.1 = nb
        · rw [hk, hgeteq]
          exact ⟨gcur + 1, rfl⟩
        · rw [hgete _ hk]
          rcases SMap.mem_set _ _ _ _ he with h | h
          · exact hinv.openG e h
          · exact absurd (congrArg Prod.fst h) hk
      · intro k t ht
        by_cases hk : k = nb
        · rw [hk, htbeq] at ht
          injection ht with ht
          rw [← ht, hk]
        · rw [htbe _ hk] at ht
          exact hinv.tb k t ht
      · intro k g hg
        by_cases hk : k = nb
        · rw [hk, hgeteq] at hg
          injection hg with hg
          exact ⟨gcur + 1, hg.symm⟩
        · rw [hgete _ hk] at hg
          exact hinv.gFin k g hg
      · intro k g hg
        by_cases hk : k = nb
        · rw [hk, htbeq]
        · rw [hgete _ hk] at hg
          rw [htbe _ hk]
          exact hinv.gTB k g hg
      · intro k g hg
        by_cases hk : k = nb
        · rw [hk, hcfeq]
          exact ⟨some currentKey, rfl⟩
        · rw [hgete _ hk] at hg
          rw [hcfe _ hk]
          exact hinv.gCF k g hg
      · intro k c hcf
        by_cases hk : k = nb
        · rw [hk, hgeteq]
          exact ⟨GCost.fin (gcur + 1), rfl⟩
        · rw [hcfe _ hk] at hcf
          rw [hgete _ hk]
          exact hinv.cfG k c hcf
      · rw [hgete startKey (fun h => hnbstart h.symm)]
        exact hinv.startG
      · intro k hk0
        by_cases hk : k = nb
        · rw [hk, hcfeq] at hk0
          injection hk0 with h
          exact Option.noConfusion h
        · rw [hcfe _ hk] at hk0
          exact hinv.cfNone k hk0
      · intro k p hkp
        by_cases hk : k = nb
        · subst hk
          rw [hcfeq] at hkp
          injection hkp with h
          injection h with h
          subst h
          exact ⟨gcur + 1, gcur, hgeteq,
            (hgete currentKey (fun hh => hne hh.symm)).trans hcur,
            Nat.lt_succ_self gcur, hadj, hw⟩
        · rw [hcfe _ hk] at hkp
          obtain ⟨gk, gp, hgk, hgp, hlt, hadj2, hwk2⟩ := hinv.cfSome k p hkp
          by_cases hpnb : p = nb
          · subst hpnb
            have h1 : gcur + 1 < gp := hupd gp hgp
            exact ⟨gk, gcur + 1, (hgete _ hk).trans hgk, hgeteq,
              by omega, hadj2, hwk2⟩
          · exact ⟨gk, gp, (hgete _ hk).trans hgk,
              (hgete _ hpnb).trans hgp, hlt, hadj2, hwk2⟩
      · intro k gk hk0
        cases hGnb : SMap.get st.gScore nb with
        | none =>
            have hl : (SMap.set st.gScore nb (GCost.fin (gcur + 1))).length
                = st.gScore.length + 1 := by
              rw [SMap.length_set, hGnb]
              simp
            rw [hl]
            by_cases hk : k = nb
            · rw [hk, hgeteq] at hk0
              injection hk0 with h
              injection h with h
              have := hinv.gBound currentKey gcur hcur
              omega
            · rw [hgete _ hk] at hk0
              have := hinv.gBound k gk hk0
              omega
        | some eg =>
            have hl : (SMap.set st.gScore nb (GCost.fin (gcur + 1))).length
                = st.gScore.length := by
              rw [SMap.length_set, hGnb]
              simp
            rw [hl]
            by_cases hk : k = nb
            · rw [hk, hgeteq] at hk0
              injection hk0 with h
              injection h with h
              obtain ⟨e, he⟩ := hinv.gFin nb eg hGnb
              rw [he] at hGnb
              have h1 : gcur + 1 < e := hupd e hGnb
              have h2 : e < st.gScore.length := hinv.gBound nb e hGnb
              omega
            · rw [hgete _ hk] at hk0
              exact hinv.gBound k gk hk0
      · cases hGnb : SMap.get st.gScore nb with
        | none =>
            have hCnb : SMap.get st.cameFrom nb = none := by
              cases hC : SMap.get st.cameFrom nb with
              | none => rfl
              | some c =>
                  obtain ⟨g2, hg2⟩ := hinv.cfG nb c hC
                  rw [hGnb] at hg2
                  exact Option.noConfusion hg2
            simp [SMap.length_set, hGnb, hCnb, hinv.lenEq]
        | some g0 =>
            obtain ⟨c0, hC⟩ := hinv.gCF nb g0 hGnb
            simp [SMap.length_set, hGnb, hC, hinv.lenEq]
      · exact (hgete currentKey (fun h => hne h.symm)).trans hcur
    · rw [if_pos hp]
      exact ⟨hinv, hcur⟩
  · rw [if_pos hw]
    exact ⟨hinv, hcur⟩

theorem foldNeighbors_inv (m : WalkableMap)
    (targetTile startKey currentKey : Tile) (gcur : Nat) (l : List Tile)
    (hl : ∀ d ∈ l, d.1.natAbs + d.2.natAbs = 1) :
    ∀ st, AInv m startKey st →
    SMap.get st.gScore currentKey = some (GCost.fin gcur) →
    AInv m startKey
      (l.foldl (processNeighbor m targetTile currentKey currentKey) st) := by
  induction l with
  | nil => exact fun st hinv _ => hinv
  | cons d tl ih =>
      intro st hinv hcur
      rw [List.foldl_cons]
      obtain ⟨hinv', hcur'⟩ := processNeighbor_inv m targetTile startKey
        currentKey st d gcur hinv hcur (hl d (List.mem_cons_self _ _))
      exact ih (fun d' hd' => hl d' (List.mem_cons_of_mem _ hd')) _ hinv' hcur'

theorem popOpen_inv (m : WalkableMap) (startKey currentKey : Tile)
    (st : AStarState) (hinv : AInv m startKey st) :
    AInv m startKey
      { st with openSet := SMap.del st.openSet currentKey,
                closedSet := st.closedSet ++ [currentKey] } := by
  refine ⟨?_, ?_, hinv.tb, hinv.gFin, hinv.gTB, hinv.gCF, hinv.cfG,
    hinv.startG, hinv.cfNone, hinv.cfSome, hinv.gBound, hinv.lenEq⟩
  · intro e he
    exact hinv.openTile e (SMap.mem_del _ _ _ he)
  · intro e he
    exact hinv.openG e (SMap.mem_del _ _ _ he)

theorem selectAux_mem (l : List (Tile × (Tile × GCost))) :
    ∀ acc e, (l.foldl (fun acc e =>
      match acc with
      | none => some e
      | some cur => if GCost.blt e.2.2 cur.2.2 then some e else acc) acc)
        = some e →
      acc = some e ∨ e ∈ l := by
  induction l with
  | nil => exact fun acc e h => Or.inl h
  | cons hd tl ih =>
      intro acc e h
      rw [List.foldl_cons] at h
      rcases ih _ e h with h' | h'
      · cases acc with
        | none =>
            dsimp only at h'
            injection h' with h2
            right
            rw [← h2]
            exact List.mem_cons_self _ _
        | some cur =>
            dsimp only at h'
            by_cases hb : GCost.blt hd.2.2 cur.2.2 = true
            · rw [if_pos hb] at h'
              injection h' with h2
              right
              rw [← h2]
              exact List.mem_cons_self _ _
            · rw [if_neg hb] at h'
              exact Or.inl h'
      · exact Or.inr (List.mem_cons_of_mem _ h')

theorem selectCurrent_mem (l : List (Tile × (Tile × GCost)))
    (e : Tile × (Tile × GCost)) (h : selectCurrent l = some e) : e ∈ l := by
  rcases selectAux_mem l none e h with h' | h'
  · exact Option.noConfusion h'
  · exact h'

theorem reconstruct_chain (m : WalkableMap) (startKey : Tile)
    (st : AStarState) (hinv : AInv m startKey st) :
    ∀ gk k, SMap.get st.gScore k = some (GCost.fin gk) →
    ∀ fuel, gk < fuel →
    ∃ l, reconstructPath fuel st.tileByKey st.cameFrom k = k :: l ∧
      (k :: l).getLast? = some startKey ∧
      List.Chain' (fun a b => tileAdjB a b = true) (k :: l) ∧
      (∀ x ∈ (k :: l).dropLast, isWalkable m x = true) ∧
      (∀ x ∈ l, ∃ gx, SMap.get st.gScore x = some (GCost.fin gx) ∧ gx < gk) := by
  intro gk
  induction gk using Nat.strong_induction_on with
  | _ gk ih =>
      intro k hk fuel hfuel
      cases fuel with
      | zero => omega
      | succ fuel =>
          have htb : SMap.get st.tileByKey k = some k := hinv.gTB k _ hk
          obtain ⟨c, hc⟩ := hinv.gCF k _ hk
          cases c with
          | none =>
              have hks : k = startKey := hinv.cfNone k hc
              subst hks
              refine ⟨[], ?_, rfl, List.chain'_singleton _, ?_, ?_⟩
              · simp [reconstructPath, htb, hc]
              · intro x hx
                simp at hx
              · intro x hx
                simp at hx
          | some p =>
              obtain ⟨gk2, gp, hgk2, hgp, hlt, hadjpk, hwkk⟩ :=
                hinv.cfSome k p hc
              have hgkeq : gk = gk2 := by
                rw [hk] at hgk2
                injection hgk2 with h
                injection h with h
              obtain ⟨l2, hrec, hlast, hchain, hwalk, hmem⟩ :=
                ih gp (by omega) p hgp fuel (by omega)
              refine ⟨p :: l2, ?_, ?_, ?_, ?_, ?_⟩
              · simp [reconstructPath, htb, hc, hrec]
              · rw [List.getLast?_cons_cons]
                exact hlast
              · rw [List.chain'_cons]
                refine ⟨?_, hchain⟩
                rw [tileAdjB_symm]
                exact hadjpk
              · intro x hx
                rw [show (k :: p :: l2).dropLast = k :: (p :: l2).dropLast
                  from rfl] at hx
                rcases List.mem_cons.mp hx with h | h
                · rw [h]
                  exact hwkk
                · exact hwalk x h
              · intro x hx
                rcases List.mem_cons.mp hx with h | h
                · refine ⟨gp, ?_, by omega⟩
                  rw [h]
                  exact hgp
                · obtain ⟨gx, hgx, hlt2⟩ := hmem x h
                  exact ⟨gx, hgx, by omega⟩

theorem aStarLoop_succ (m : WalkableMap) (targetTile : Tile) (fuel : Nat)
    (st : AStarState) :
    aStarLoop m targetTile (fuel + 1) st =
      if st.openSet.isEmpty then none
      else
        match selectCurrent st.openSet with
        | none => none
        | some (currentKey, currentNode) =>
            if currentNode.1 = targetTile then
              some ((reconstructPath (st.cameFrom.length + 1) st.tileByKey
                st.cameFrom currentKey).reverse)
            else
              aStarLoop m targetTile fuel
                (dirs.foldl (processNeighbor m targetTile currentKey
                  currentNode.1)
                  { st with openSet := SMap.del st.openSet currentKey,
                            closedSet := st.closedSet ++ [currentKey] }) := rfl

theorem aStarLoop_spec (m : WalkableMap) (targetTile startKey : Tile) :
    ∀ fuel st tiles, AInv m startKey st →
    aStarLoop m targetTile fuel st = some tiles →
    tiles.head? = some startKey ∧ tiles.getLast? = some targetTile ∧
    List.Chain' (fun a b => tileAdjB a b = true) tiles ∧
    ∀ x ∈ tiles.tail, isWalkable m x = true := by
  intro fuel
  induction fuel with
  | zero =>
      intro st tiles _ h
      exact Option.noConfusion h
  | succ fuel ih =>
      intro st tiles hinv h
      rw [aStarLoop_succ] at h
      by_cases he : st.openSet.isEmpty = true
      · rw [if_pos he] at h
        exact Option.noConfusion h
      rw [if_neg he] at h
      cases hsel : selectCurrent st.openSet with
      | none =>
          rw [hsel] at h
          exact Option.noConfusion h
      | some e =>
          rw [hsel] at h
          obtain ⟨currentKey, currentNode⟩ := e
          dsimp only at h
          have hmem := selectCurrent_mem _ _ hsel
          have htile : currentNode.1 = currentKey := hinv.openTile _ hmem
          obtain ⟨gcur, hgcur⟩ := hinv.openG _ hmem
          by_cases htgt : currentNode.1 = targetTile
          · rw [if_pos htgt] at h
            injection h with h
            have hck : currentKey = targetTile := by rw [← htile, htgt]
            have hbound : gcur < st.cameFrom.length + 1 := by
              have h1 := hinv.gBound currentKey gcur hgcur
              have h2 := hinv.lenEq
              omega
            obtain ⟨l, hrec, hlast, hchain, hwalk, _⟩ :=
              reconstruct_chain m startKey st hinv gcur currentKey hgcur
                (st.cameFrom.length + 1) hbound
            rw [hrec] at h
            subst h
            refine ⟨?_, ?_, ?_, ?_⟩
            · rw [List.head?_reverse]
              exact hlast
            · rw [List.getLast?_reverse]
              simp [hck]
            · rw [List.chain'_reverse]
              refine List.Chain'.imp ?_ hchain
              intro a b hab
              rw [tileAdjB_symm] at hab
              exact hab
            · intro x hx
              rw [List.tail_reverse_eq_reverse_dropLast, List.mem_reverse]
                at hx
              exact hwalk x hx
          · rw [if_neg htgt] at h
            rw [htile] at h
            have hinv1 := popOpen_inv m startKey currentKey st hinv
            have hcur1 : SMap.get
                ({ st with openSet := SMap.del st.openSet currentKey,
                           closedSet := st.closedSet ++ [currentKey] }
                  : AStarState).gScore currentKey
                = some (GCost.fin gcur) := hgcur
            have hinv2 := foldNeighbors_inv m targetTile startKey currentKey
              gcur dirs (by decide) _ hinv1 hcur1
            exact ih _ tiles hinv2 h

theorem get_singleton_eq {α β : Type} [DecidableEq α] (k : α) (v : β) :
    SMap.get [(k, v)] k = some v := by
  simp [SMap.get]

theorem get_singleton_ne {α β : Type} [DecidableEq α] (k k' : α) (v : β)
    (h : ¬ k = k') : SMap.get [(k, v)] k' = none := by
  simp [SMap.get, h]

theorem init_inv (m : WalkableMap) (targetTile startTile : Tile) :
    AInv m startTile
      { openSet := [(startTile,
          (startTile, GCost.fin (heuristic targetTile startTile)))],
        gScore := [(startTile, GCost.fin 0)],
        cameFrom := [(startTile, none)],
        tileByKey := [(startTile, startTile)],
        closedSet := [] } := by
  refine ⟨?_, ?_, ?_, ?_, ?_, ?_, ?_, ?_, ?_, ?_, ?_, rfl⟩
  · intro e he
    rw [List.mem_singleton] at he
    rw [he]
  · intro e he
    rw [List.mem_singleton] at he
    rw [he]
    exact ⟨0, get_singleton_eq _ _⟩
  · intro k t ht
    by_cases hk : startTile = k
    · subst hk
      rw [get_singleton_eq] at ht
      injection ht with ht
      rw [ht]
    · rw [get_singleton_ne _ _ _ hk] at ht
      exact Option.noConfusion ht
  · intro k g hg
    by_cases hk : startTile = k
    · subst hk
      rw [get_singleton_eq] at hg
      injection hg with hg
      exact ⟨0, hg.symm⟩
    · rw [get_singleton_ne _ _ _ hk] at hg
      exact Option.noConfusion hg
  · intro k g hg
    by_cases hk : startTile = k
    · subst hk
      exact get_singleton_eq _ _
    · rw [get_singleton_ne _ _ _ hk] at hg
      exact Option.noConfusion hg
  · intro k g hg
    by_cases hk : startTile = k
    · subst hk
      exact ⟨none, get_singleton_eq _ _⟩
    · rw [get_singleton_ne _ _ _ hk] at hg
      exact Option.noConfusion hg
  · intro k c hc
    by_cases hk : startTile = k
    · subst hk
      exact ⟨GCost.fin 0, get_singleton_eq _ _⟩
    · rw [get_singleton_ne _ _ _ hk] at hc
      exact Option.noConfusion hc
  · exact get_singleton_eq _ _
  · intro k hk0
    by_cases hk : startTile = k
    · exact hk.symm
    · rw [get_singleton_ne _ _ _ hk] at hk0
      exact Option.noConfusion hk0
  · intro k p hkp
    by_cases hk : startTile = k
    · subst hk
      rw [get_singleton_eq] at hkp
      injection hkp with h
      exact Option.noConfusion h
    · rw [get_singleton_ne _ _ _ hk] at hkp
      exact Option.noConfusion hkp
  · intro k gk hk0
    by_cases hk : startTile = k
    · subst hk
      rw [get_singleton_eq] at hk0
      injection hk0 with h
      injection h with h
      simp [← h]
    · rw [get_singleton_ne _ _ _ hk] at hk0
      exact Option.noConfusion hk0

/-- C7 (amended): whenever `findPath` answers a path, the waypoints are the
tile-centre pixels of a tile chain whose first tile is the (clamped) start
tile, whose last tile is the (clamped) target tile, in which consecutive
tiles are 4-neighbours, and in which every tile EXCEPT possibly the first
is walkable.  The start tile's walkability is never checked: neither the
same-tile early return nor the A* loop (which seeds the open set with the
start tile unconditionally and only walkability-checks neighbours) looks
at `grid[startTile]`, so the first waypoint can sit on a blocked tile. -/
theorem findPath_waypoints (m : WalkableMap) (fuel : Nat)
    (start target : ℚ × ℚ) (path : List (ℚ × ℚ))
    (h : findPath m fuel start target = some path) :
    ∃ tiles : List Tile,
      path = tiles.map (toPixel m) ∧
      tiles.head? = some (toTile m start) ∧
      tiles.getLast? = some (toTile m target) ∧
      List.Chain' (fun a b => tileAdjB a b = true) tiles ∧
      ∀ x ∈ tiles.tail, isWalkable m x = true := by
  unfold findPath at h
  by_cases heq : toTile m start = toTile m target
  · rw [if_pos heq] at h
    injection h with h
    refine ⟨[toTile m target], ?_, ?_, rfl, List.chain'_singleton _, ?_⟩
    · rw [← h]
      rfl
    · simp [heq]
    · intro x hx
      simp at hx
  · rw [if_neg heq] at h
    dsimp only at h
    rcases Option.map_eq_some'.mp h with ⟨tiles, hrun, hmap⟩
    obtain ⟨h1, h2, h3, h4⟩ := aStarLoop_spec m (toTile m target)
      (toTile m start) fuel _ tiles
      (init_inv m (toTile m target) (toTile m start)) hrun
    exact ⟨tiles, hmap.symm, h1, h2, h3, h4⟩

def c7Map : WalkableMap :=
  { grid := [[1, 0]], width := 2, height := 1, tileWidth := 1, tileHeight := 1 }

def c7OpenMap : WalkableMap :=
  { grid := [[0, 0]], width := 2, height := 1, tileWidth := 1, tileHeight := 1 }

/-- Counterexample to C7: on the 2x1 map whose LEFT tile is blocked,
`findPath` from a pixel inside the blocked tile to the free tile returns a
path whose first waypoint is the centre of the blocked start tile —
`findPath` never checks the start tile's walkability, refuting "every
returned waypoint lies at the center pixel of a walkable tile". -/
theorem findPath_unwalkable_start_cex :
    findPath c7Map 4 (0, 0) (1, 0)
      = some [toPixel c7Map (0, 0), toPixel c7Map (1, 0)] ∧
    toTile c7Map (0, 0) = (0, 0) ∧
    isWalkable c7Map (0, 0) = false := by
  have h1 : toTile c7Map (0, 0) = ((0 : Int), (0 : Int)) := by
    simp [toTile, c7Map]
  have h2 : toTile c7Map (1, 0) = ((1 : Int), (0 : Int)) := by
    simp [toTile, c7Map]
  refine ⟨?_, h1, by decide⟩
  unfold findPath
  rw [h1, h2]
  rw [if_neg (by decide)]
  dsimp only
  have hrun : aStarLoop c7Map ((1 : Int), (0 : Int)) 4
      { openSet := [(((0 : Int), (0 : Int)), (((0 : Int), (0 : Int)),
          GCost.fin (heuristic ((1 : Int), (0 : Int)) ((0 : Int), (0 : Int)))))],
        gScore := [(((0 : Int), (0 : Int)), GCost.fin 0)],
        cameFrom := [(((0 : Int), (0 : Int)), none)],
        tileByKey := [(((0 : Int), (0 : Int)), ((0 : Int), (0 : Int)))],
        closedSet := [] }
      = some [((0 : Int), (0 : Int)), ((1 : Int), (0 : Int))] := by decide
  rw [hrun]
  rfl

theorem findPath_waypoints_witness :
    findPath c7OpenMap 4 (0, 0) (1, 0)
      = some [toPixel c7OpenMap (0, 0), toPixel c7OpenMap (1, 0)] ∧
    (∃ tiles : List Tile,
      [toPixel c7OpenMap (0, 0), toPixel c7OpenMap (1, 0)]
        = tiles.map (toPixel c7OpenMap) ∧
      tiles.head? = some (toTile c7OpenMap (0, 0)) ∧
      tiles.getLast? = some (toTile c7OpenMap (1, 0)) ∧
      List.Chain' (fun a b => tileAdjB a b = true) tiles ∧
      ∀ x ∈ tiles.tail, isWalkable c7OpenMap x = true) := by
  have h1 : toTile c7OpenMap (0, 0) = ((0 : Int), (0 : Int)) := by
    simp [toTile, c7OpenMap]
  have h2 : toTile c7OpenMap (1, 0) = ((1 : Int), (0 : Int)) := by
    simp [toTile, c7OpenMap]
  have hW : findPath c7OpenMap 4 (0, 0) (1, 0)
      = some [toPixel c7OpenMap (0, 0), toPixel c7OpenMap (1, 0)] := by
    unfold findPath
    rw [h1, h2]
    rw [if_neg (by decide)]
    dsimp only
    have hrun : aStarLoop c7OpenMap ((1 : Int), (0 : Int)) 4
        { openSet := [(((0 : Int), (0 : Int)), (((0 : Int), (0 : Int)),
            GCost.fin (heuristic ((1 : Int), (0 : Int)) ((0 : Int), (0 : Int)))))],
          gScore := [(((0 : Int), (0 : Int)), GCost.fin 0)],
          cameFrom := [(((0 : Int), (0 : Int)), none)],
          tileByKey := [(((0 : Int), (0 : Int)), ((0 : Int), (0 : Int)))],
          closedSet := [] }
        = some [((0 : Int), (0 : Int)), ((1 : Int), (0 : Int))] := by decide
    rw [hrun]
    rfl
  exact ⟨hW, findPath_waypoints c7OpenMap 4 (0, 0) (1, 0) _ hW⟩
